import Mathlib

/-!
# Verification of the `sit` archive encoder

A shallow embedding of the StuffIt archiver from `src/sit.c` and the
AppleDouble sidecar parser from `src/appledouble.c`, together with proofs
about the claims of the specification.

Modelling conventions:
* bytes are `Nat`s (file contents are lists of values `< 256`; the
  arithmetic encoders truncate exactly as the C casts do);
* the output archive is a byte store `Arch`: a total function from offsets
  to bytes together with the current length.  `write`/`creat`/`lseek`
  sequences of the C code become `appendBytes`/`writeBytes` applications;
* the 16-bit CRC accumulator `updcrc` (external to `src/`) and the LZW
  codec invoked through `zopen` (external to `src/`) are parameters of the
  environment `Env`.  `Env.comp` maps the bytes fed to the compressor to
  the bytes that reach the archive (the C code strips the 3-byte codec
  preamble before copying; `comp`'s result is the stream after that strip);
* the filesystem entities consumed by the encoder (`stat`, `readdir`,
  sidecar files) are presented as explicit data (`FileNode`, `DirInfo`,
  `FSItem`).  `FileNode.data` is the primary-fork content (the `name.data`
  fallback of `put_file` is folded into it); sidecar files are raw byte
  lists so that the AppleDouble parser runs on them exactly as in C.
-/

namespace Sit

/-- `cp2` from sit.c: big-endian encoding of the low 16 bits of a value
(the C parameter type `uint16_t` truncates; `dest[1] = x` truncates again). -/
def cp2 (x : Nat) : List Nat := [x / 256 % 256, x % 256]

/-- `cp4` from sit.c: big-endian encoding of the low 32 bits of a value. -/

def cp4 (x : Nat) : List Nat :=
  [x / 16777216 % 256, x / 65536 % 256, x / 256 % 256, x % 256]

/-- `read_uint16_be` from appledouble.c. -/

def be16 (l : List Nat) : Nat := l.getD 0 0 * 256 + l.getD 1 0

/-- `read_uint32_be` from appledouble.c. -/

def be32 (l : List Nat) : Nat :=
  l.getD 0 0 * 16777216 + l.getD 1 0 * 65536 + l.getD 2 0 * 256 + l.getD 3 0

@[simp] theorem cp2_length (x : Nat) : (cp2 x).length = 2 := rfl

@[simp] theorem cp4_length (x : Nat) : (cp4 x).length = 4 := rfl

def field (n : Nat) (l : List Nat) : List Nat :=
  l.take n ++ List.replicate (n - l.length) 0

@[simp] theorem field_length (n : Nat) (l : List Nat) : (field n l).length = n := by
  simp [field]; omega

def strncpyBytes (src : List Nat) (n : Nat) : List Nat :=
  field n (src.takeWhile (fun b => b ≠ 0))

@[simp] theorem strncpyBytes_length (src : List Nat) (n : Nat) :
    (strncpyBytes src n).length = n := by simp [strncpyBytes]

/-- A Pascal string: length byte followed by the data bytes. -/

def pstr (l : List Nat) : List Nat := l.length :: l

/-! ## The output archive as a random-access byte store

`put_file`/`put_folder_entry` position the output with `lseek` and patch
previously written records in place, so the archive is modelled as a total
byte function plus the current end-of-file. -/

structure Arch where
  f : Nat → Nat
  len : Nat

def arch0 : Arch := ⟨fun _ => 0, 0⟩

/-- `lseek(ofd, off, SEEK_SET); write(ofd, b, …)`: overwrite the region
starting at `off`. -/

def writeBytes (a : Arch) (off : Nat) (b : List Nat) : Arch :=
  ⟨fun i => if off ≤ i ∧ i < off + b.length then b.getD (i - off) 0 else a.f i,
   max a.len (off + b.length)⟩

/-- A plain `write` at the current end of file. -/

def appendBytes (a : Arch) (b : List Nat) : Arch := writeBytes a a.len b

/-- Read `n` bytes starting at `off`. -/

def readBytes (a : Arch) (off n : Nat) : List Nat :=
  (List.range n).map (fun i => a.f (off + i))

@[simp] theorem readBytes_length (a : Arch) (off n : Nat) :
    (readBytes a off n).length = n := by simp [readBytes]

@[simp] theorem appendBytes_len (a : Arch) (b : List Nat) :
    (appendBytes a b).len = a.len + b.length := by
  simp [appendBytes, writeBytes]

def hiBitCharMap : List (Nat × Nat × Nat × Nat) :=
  [(0xC3,0x84,0x00,0x80),(0xC3,0x85,0x00,0x81),(0xC3,0x87,0x00,0x82),(0xC3,0x89,0x00,0x83),
   (0xC3,0x91,0x00,0x84),(0xC3,0x96,0x00,0x85),(0xC3,0x9C,0x00,0x86),(0xC3,0xA1,0x00,0x87),
   (0xC3,0xA0,0x00,0x88),(0xC3,0xA2,0x00,0x89),(0xC3,0xA4,0x00,0x8A),(0xC3,0xA3,0x00,0x8B),
   (0xC3,0xA5,0x00,0x8C),(0xC3,0xA7,0x00,0x8D),(0xC3,0xA9,0x00,0x8E),(0xC3,0xA8,0x00,0x8F),
   (0xC3,0xAA,0x00,0x90),(0xC3,0xAB,0x00,0x91),(0xC3,0xAD,0x00,0x92),(0xC3,0xAC,0x00,0x93),
   (0xC3,0xAE,0x00,0x94),(0xC3,0xAF,0x00,0x95),(0xC3,0xB1,0x00,0x96),(0xC3,0xB3,0x00,0x97),
   (0xC3,0xB2,0x00,0x98),(0xC3,0xB4,0x00,0x99),(0xC3,0xB6,0x00,0x9A),(0xC3,0xB5,0x00,0x9B),
   (0xC3,0xBA,0x00,0x9C),(0xC3,0xB9,0x00,0x9D),(0xC3,0xBB,0x00,0x9E),(0xC3,0xBC,0x00,0x9F),
   (0xE2,0x80,0xA0,0xA0),(0xC2,0xB0,0x00,0xA1),(0xC2,0xA2,0x00,0xA2),(0xC2,0xA3,0x00,0xA3),
   (0xC2,0xA7,0x00,0xA4),(0xE2,0x80,0xA2,0xA5),(0xC2,0xB6,0x00,0xA6),(0xC3,0x9F,0x00,0xA7),
   (0xC2,0xAE,0x00,0xA8),(0xC2,0xA9,0x00,0xA9),(0xE2,0x84,0xA2,0xAA),(0xC2,0xB4,0x00,0xAB),
   (0xC2,0xA8,0x00,0xAC),(0xE2,0x89,0xA0,0xAD),(0xC3,0x86,0x00,0xAE),(0xC3,0x98,0x00,0xAF),
   (0xE2,0x88,0x9E,0xB0),(0xC2,0xB1,0x00,0xB1),(0xE2,0x89,0xA4,0xB2),(0xE2,0x89,0xA5,0xB3),
   (0xC2,0xA5,0x00,0xB4),(0xC2,0xB5,0x00,0xB5),(0xE2,0x88,0x82,0xB6),(0xE2,0x88,0x91,0xB7),
   (0xE2,0x88,0x8F,0xB8),(0xCF,0x80,0x00,0xB9),(0xE2,0x88,0xAB,0xBA),(0xC2,0xAA,0x00,0xBB),
   (0xC2,0xBA,0x00,0xBC),(0xCE,0xA9,0x00,0xBD),(0xC3,0xA6,0x00,0xBE),(0xC3,0xB8,0x00,0xBF),
   (0xC2,0xBF,0x00,0xC0),(0xC2,0xA1,0x00,0xC1),(0xC2,0xAC,0x00,0xC2),(0xE2,0x88,0x9A,0xC3),
   (0xC6,0x92,0x00,0xC4),(0xE2,0x89,0x88,0xC5),(0xE2,0x88,0x86,0xC6),(0xC2,0xAB,0x00,0xC7),
   (0xC2,0xBB,0x00,0xC8),(0xE2,0x80,0xA6,0xC9),(0xC2,0xA0,0x00,0xCA),(0xC3,0x80,0x00,0xCB),
   (0xC3,0x83,0x00,0xCC),(0xC3,0x95,0x00,0xCD),(0xC5,0x92,0x00,0xCE),(0xC5,0x93,0x00,0xCF),
   (0xE2,0x80,0x93,0xD0),(0xE2,0x80,0x94,0xD1),(0xE2,0x80,0x9C,0xD2),(0xE2,0x80,0x9D,0xD3),
   (0xE2,0x80,0x98,0xD4),(0xE2,0x80,0x99,0xD5),(0xC3,0xB7,0x00,0xD6),(0xE2,0x97,0x8A,0xD7),
   (0xC3,0xBF,0x00,0xD8)]

/-- The inner `for` loop over `hiBitCharMap`: given the current byte `c`,
the next two input bytes (`none` past the end of the input) and the current
`remaining` count, return the MacRoman byte and whether a 3-byte sequence
was consumed (`true`) or a 2-byte one (`false`).  A group whose tail bytes
do not match is skipped and the scan continues, exactly as in the C loop. -/

def scanMap (c : Nat) (p1 p2 : Option Nat) (remaining : Nat) :
    List (Nat × Nat × Nat × Nat) → Option (Nat × Bool)
  | [] => none
  | (u0, u1, u2, m) :: rest =>
    if c = u0 ∧ p1 = some u1 then
      if u2 = 0 then some (m, false)
      else if 2 < remaining ∧ p2 = some u2 then some (m, true)
      else scanMap c p1 p2 remaining rest
    else scanMap c p1 p2 remaining rest

/-- The `while (remaining > 0)` loop of `convertFilesystemNameToMacRoman`.
`r` is the `remaining` counter; the fuel `F` only drives the structural
recursion and never cuts the computation short when `r ≤ F`, since every
step consumes at least one unit of both. -/

def convGo : Nat → List Nat → Nat → List Nat
  | 0, _, _ => []
  | _ + 1, _, 0 => []
  | _ + 1, [], _ + 1 => []
  | F + 1, c :: rest, r' + 1 =>
    if 128 ≤ c ∧ 0 < r' then
      match scanMap c rest.head? (rest.drop 1).head? (r' + 1) hiBitCharMap with
      | some (m, false) => m :: convGo F (rest.drop 1) (r' - 1)
      | some (m, true) => m :: convGo F (rest.drop 2) (r' - 2)
      | none => c :: convGo F rest r'
    else
      (if c = 58 then 47 else c) :: convGo F rest r'

/-- `convertFilesystemNameToMacRoman` without the Pascal-string framing:
the emitted data bytes.  `remaining = min(strlen(fsName), maxLength)`. -/

def convertName (bytes : List Nat) (maxLength : Nat) : List Nat :=
  convGo (min bytes.length maxLength) bytes (min bytes.length maxLength)

/-! ## AppleDouble sidecar parser (appledouble.c) -/

/-- `ADEntry` from appledouble.c. -/

structure ADEntry where
  id : Nat
  offset : Nat
  size : Nat
deriving DecidableEq, Repr

/-- The magic number `AS_MAGIC_AD`. -/

def adMagic : Nat := 0x00051607

/-- The entry-scanning loop of `find_appledouble_entry`: `n` entries are
read sequentially starting at byte position `pos`; a short read aborts with
`none`. -/

def findLoop (c : List Nat) (tid : Nat) : Nat → Nat → Option ADEntry
  | 0, _ => none
  | n + 1, pos =>
    let eb := (c.drop pos).take 12
    if eb.length < 12 then none
    else if be32 (eb.take 4) = tid then
      some ⟨be32 (eb.take 4), be32 ((eb.drop 4).take 4), be32 ((eb.drop 8).take 4)⟩
    else findLoop c tid n (pos + 12)

/-- `find_appledouble_entry`: validate the 26-byte header and the magic
number, then scan the table of 12-byte descriptors for `tid`. -/

def findEntry (c : List Nat) (tid : Nat) : Option ADEntry :=
  if c.length < 26 then none
  else if be32 (c.take 4) ≠ adMagic then none
  else findLoop c tid (be16 ((c.drop 24).take 2)) 26

/-- `RESOURCE_FORK_ID`. -/

def resourceForkId : Nat := 2

/-- `FINDER_INFO_ID`. -/

def finderInfoId : Nat := 9

/-! ## Run environment and filesystem model -/

/-- Per-run parameters of the encoder.
`updcrc` is the external 16-bit CRC accumulator (its implementation is not
part of `src/`); `comp` is the external LZW codec as seen by `dofork`: the
bytes that reach the archive for a given pre-compression stream (the C code
strips the codec's 3-byte preamble before copying).  `unixf` is the `-u`
flag, `defType`/`defCreator` the `-T`/`-C` overrides or the `"TEXT"`/
`"KAHL"` fallbacks, and `tdiff` the `TIMEDIFF + get_timezone_offset()`
constant. -/

structure Env where
  updcrc : Nat → List Nat → Nat
  comp : List Nat → List Nat
  unixf : Bool
  defType : List Nat
  defCreator : List Nat
  tdiff : Nat

/-- A regular file as the encoder sees it.  `name` is the `basename`
(`d_name`) in UTF-8 bytes; `dotUnderscore` and `rsrcFile` are the raw
contents of the `._name` and `name.rsrc` sidecars when those files exist;
`namedFork` is the `name/..namedfork/rsrc` stream; `data` is the primary
fork (the `name.data` fallback of `put_file` is folded in); `infoFile` is
the raw `name.info` content; `ctime`/`mtime` are the `stat` times
(`st_birthtime` on the platforms that have it). -/

structure FileNode where
  name : List Nat
  dotUnderscore : Option (List Nat)
  rsrcFile : Option (List Nat)
  namedFork : Option (List Nat)
  data : List Nat
  infoFile : Option (List Nat)
  ctime : Nat
  mtime : Nat

/-- A directory's own attributes. -/

structure DirInfo where
  name : List Nat
  ctime : Nat
  mtime : Nat
deriving DecidableEq, Repr

/-- A filesystem tree item, as enumerated by `lstat`/`readdir`. -/

inductive FSItem where
  | file : FileNode → FSItem
  | dir : DirInfo → List FSItem → FSItem

/-- `open_appledouble_file`: try `._basename`, then `basename.rsrc`. -/

def openAppleDouble (f : FileNode) : Option (List Nat) :=
  match f.dotUnderscore with
  | some c => some c
  | none => f.rsrcFile

/-- `get_appledouble_rsrc_size`. -/

def getADRsrcSize (f : FileNode) : Nat :=
  match openAppleDouble f with
  | none => 0
  | some c =>
    match findEntry c resourceForkId with
    | none => 0
    | some e => e.size

/-- The bytes `read_appledouble_rsrc_with_crc` copies to the archive: seek
to the descriptor's offset and read up to its size (a short file ends the
copy early). -/

def adRsrcBytes (f : FileNode) : List Nat :=
  match openAppleDouble f with
  | none => []
  | some c =>
    match findEntry c resourceForkId with
    | none => []
    | some e => (c.drop e.offset).take e.size

/-- `read_appledouble_metadata`: locate the Finder-info entry, require at
least 32 bytes of descriptor size and of actual data, and slice out type,
creator and flags. -/

def readADMeta (f : FileNode) : Option (List Nat × List Nat × List Nat) :=
  match openAppleDouble f with
  | none => none
  | some c =>
    match findEntry c finderInfoId with
    | none => none
    | some e =>
      if e.size < 32 then none
      else if (c.drop e.offset).length < 32 then none
      else some ((c.drop e.offset).take 4,
                 ((c.drop e.offset).drop 4).take 4,
                 ((c.drop e.offset).drop 8).take 2)

/-- The fields of a parsed `.info` file (`infoHdr`, sit.h). -/

structure InfoRec where
  name : List Nat
  type : List Nat
  creator : List Nat
  flag : List Nat
  ctime : List Nat
  mtime : List Nat

/-- `open(name.info)` followed by a full 100-byte `read` of `infoHdr`;
fails when the file is missing or shorter than the record. -/

def parseInfoFile : Option (List Nat) → Option InfoRec
  | none => none
  | some c =>
    if c.length < 100 then none
    else some ⟨(c.drop 2).take 64, (c.drop 66).take 4, (c.drop 70).take 4,
               (c.drop 74).take 2, (c.drop 92).take 4, (c.drop 96).take 4⟩

/-! ## Fork transfer pipeline (`dofork`, sit.c) -/

/-- The `-u` line-ending substitution applied by `dofork` when `convert`
is set. -/

def convertLF (convert : Bool) (content : List Nat) : List Nat :=
  if convert then content.map (fun b => if b = 10 then 13 else b) else content

/-- `dofork`: returns the bytes written to the archive and the CRC of the
pre-compression (possibly LF-converted) stream. -/

def doforkBytes (env : Env) (content : List Nat) (convert : Bool) :
    List Nat × Nat :=
  let conv := convertLF convert content
  (env.comp conv, env.updcrc 0 conv)

/-! ## Entry header record (`fileHdr`, sit.h) -/

/-- The 112-byte `fileHdr` record; list fields are stored `memset`-zero
padded to their struct width by `fhBytes`. -/

structure FH where
  compRMethod : Nat
  compDMethod : Nat
  fName : List Nat
  fType : List Nat
  fCreator : List Nat
  fndrFlags : List Nat
  cDate : List Nat
  mDate : List Nat
  rLen : List Nat
  dLen : List Nat
  cRLen : List Nat
  cDLen : List Nat
  rsrcCRC : List Nat
  dataCRC : List Nat
  reserved : List Nat
  hdrCRC : List Nat

/-- The all-zero record produced by `memset(&fh, 0, sizeof(fh))`. -/

def fh0 : FH := ⟨0, 0, [], [], [], [], [], [], [], [], [], [], [], [], [], []⟩

/-- The serialized 112 bytes of a `fileHdr`, field by field in struct
layout order. -/

def fhBytes (h : FH) : List Nat :=
  h.compRMethod :: h.compDMethod :: (field 64 h.fName ++ field 4 h.fType ++
  field 4 h.fCreator ++ field 2 h.fndrFlags ++ field 4 h.cDate ++
  field 4 h.mDate ++ field 4 h.rLen ++ field 4 h.dLen ++ field 4 h.cRLen ++
  field 4 h.cDLen ++ field 2 h.rsrcCRC ++ field 2 h.dataCRC ++
  field 6 h.reserved ++ field 2 h.hdrCRC)

@[simp] theorem fhBytes_length (h : FH) : (fhBytes h).length = 112 := by
  simp [fhBytes]

/-- `crc = updcrc(0, &fh, sizeof(fh)-2); cp2(crc, fh.hdrCRC)`: the header
checksum over the first 110 bytes of the record as it stands. -/

def setCRC (env : Env) (h : FH) : FH :=
  { h with hdrCRC := cp2 (env.updcrc 0 ((fhBytes h).take 110)) }

/-! ## Archive encoder (`put_file`, `put_folder_entry`, `put_folder`,
`put_item`, `main`; sit.c) -/

/-- Observable actions of a run: a 112-byte entry-header `write` at a file
offset, and a consultation of secondary-fork resolution strategy `k`. -/

inductive Ev where
  | hdrWrite : Nat → Ev
  | consult : Nat → Ev
deriving DecidableEq, Repr

/-- Number of entry-header writes performed at offset `off`. -/

def countWrites (evs : List Ev) (off : Nat) : Nat :=
  (evs.filter (fun e => e = Ev.hdrWrite off)).length

/-- A closed folder bracket: offsets of the folder-open and folder-close
records, the folder's accumulated uncompressed byte total, and the
directory attributes the records were built from. -/

structure Bracket where
  sPos : Nat
  ePos : Nat
  unc : Nat
  d : DirInfo
deriving DecidableEq, Repr

/-- Encoder state: the archive bytes, the event trace, the finalized
entry-header records `(offset, bytes)`, and the closed folder brackets. -/

structure EncSt where
  arch : Arch
  events : List Ev
  headers : List (Nat × List Nat)
  brackets : List Bracket

/-- Outcome of the resource-fork resolution block of `put_file`:
`rlen` is the length recorded in `fh.rLen`, `written` the bytes that went
to the archive, `crc` the value recorded in `fh.rsrcCRC`, `consults` the
strategies attempted in order, and `found` the `fork++` flag. -/

structure RsrcRes where
  rlen : Nat
  written : List Nat
  crc : Nat
  consults : List Ev
  found : Bool

/-- Strategy 3 of `put_file` (the platform named fork), reached only when
strategies 1 and 2 both reported length 0. -/

def resolveRsrc3 (env : Env) (f : FileNode) : RsrcRes :=
  match f.namedFork with
  | some c =>
    if 0 < c.length then
      ⟨c.length, (doforkBytes env c false).1, (doforkBytes env c false).2,
       [Ev.consult 1, Ev.consult 2, Ev.consult 3], true⟩
    else ⟨0, [], 0, [Ev.consult 1, Ev.consult 2, Ev.consult 3], false⟩
  | none => ⟨0, [], 0, [Ev.consult 1, Ev.consult 2, Ev.consult 3], false⟩

/-- Strategies 1–3 of `put_file` in their strict order: the structured
AppleDouble sidecar, the raw `name.rsrc` file, then the platform named
fork; each later strategy runs only while `rlen == 0`. -/

def resolveRsrc (env : Env) (f : FileNode) : RsrcRes :=
  let rlen1 := getADRsrcSize f
  if 0 < rlen1 then
    let rb := adRsrcBytes f
    ⟨rlen1, rb, env.updcrc 0 rb, [Ev.consult 1], true⟩
  else
    match f.rsrcFile with
    | some c =>
      if 0 < c.length then
        ⟨c.length, (doforkBytes env c false).1, (doforkBytes env c false).2,
         [Ev.consult 1, Ev.consult 2], true⟩
      else resolveRsrc3 env f
    | none => resolveRsrc3 env f

/-- The metadata fields of a file entry record. -/

structure MetaRes where
  fName : List Nat
  fType : List Nat
  fCreator : List Nat
  flags : List Nat
  cDate : List Nat
  mDate : List Nat

/-- The metadata block of `put_file`: a complete `.info` record wins;
otherwise the transcoded basename plus, in order, AppleDouble Finder info,
the named-fork resource header (only when a resource fork was found), or
the `-T`/`-C` defaults; dates then come from `stat`. -/

def resolveMeta (env : Env) (f : FileNode) (rlen : Nat) : MetaRes :=
  match parseInfoFile f.infoFile with
  | some ih =>
    ⟨strncpyBytes ih.name 64, strncpyBytes ih.type 4, strncpyBytes ih.creator 4,
     strncpyBytes ih.flag 2, strncpyBytes ih.ctime 4, strncpyBytes ih.mtime 4⟩
  | none =>
    let nm := field 64 (pstr (convertName f.name 63))
    let cD := cp4 (f.ctime + env.tdiff)
    let mD := cp4 (f.mtime + env.tdiff)
    match readADMeta f with
    | some (t, cr, fl) =>
      ⟨nm, strncpyBytes t 4, strncpyBytes cr 4, strncpyBytes fl 2, cD, mD⟩
    | none =>
      match f.namedFork with
      | some c =>
        if rlen ≠ 0 ∧ 128 ≤ c.length then
          ⟨nm, strncpyBytes ((c.drop 82).take 4) 4,
           strncpyBytes ((c.drop 86).take 4) 4,
           strncpyBytes ((c.drop 90).take 2) 2, cD, mD⟩
        else
          ⟨nm, strncpyBytes env.defType 4, strncpyBytes env.defCreator 4, [], cD, mD⟩
      | none =>
        ⟨nm, strncpyBytes env.defType 4, strncpyBytes env.defCreator 4, [], cD, mD⟩

/-- The finalized file-entry record of `put_file` (before the header CRC):
compression methods are `noComp` (0) when the transferred length equals
the fork length and `lzwComp` (2) otherwise; absent forks leave their
fields `memset`-zero. -/

def buildFileFH (env : Env) (f : FileNode) (r : RsrcRes) (dlen : Nat)
    (dw : List Nat) (dcrc : Nat) : FH :=
  let m := resolveMeta env f r.rlen
  { compRMethod := if r.found then (if r.written.length = r.rlen then 0 else 2) else 0
    compDMethod := if 0 < dlen then (if dw.length = dlen then 0 else 2) else 0
    fName := m.fName
    fType := m.fType
    fCreator := m.fCreator
    fndrFlags := m.flags
    cDate := m.cDate
    mDate := m.mDate
    rLen := if r.found then cp4 r.rlen else []
    dLen := if 0 < dlen then cp4 dlen else []
    cRLen := if r.found then cp4 r.written.length else []
    cDLen := if 0 < dlen then cp4 dw.length else []
    rsrcCRC := if r.found then cp2 r.crc else []
    dataCRC := if 0 < dlen then cp2 dcrc else []
    reserved := []
    hdrCRC := [] }

/-- The finalized file-entry record bytes for a given file. -/

def fileRecBytes (env : Env) (f : FileNode) : List Nat :=
  let r := resolveRsrc env f
  let dlen := f.data.length
  let dres := doforkBytes env f.data env.unixf
  let dw := if 0 < dlen then dres.1 else []
  fhBytes (setCRC env (buildFileFH env f r dlen dw dres.2))

/-- `put_file`: reserve an empty 112-byte header, stream the resource fork
then the data fork, and either rewrite the finalized header in place or —
when the file has neither fork — leave the placeholder and report 0.
Returns the new state, the compressed length `fpos2 - fpos1` (0 on skip)
and the amount added to `*uncompressedLen`. -/

def putFileM (env : Env) (st : EncSt) (f : FileNode) : EncSt × Nat × Nat :=
  let p := st.arch.len
  let a1 := appendBytes st.arch (List.replicate 112 0)
  let r := resolveRsrc env f
  let a2 := appendBytes a1 r.written
  let dlen := f.data.length
  let dres := doforkBytes env f.data env.unixf
  let dw := if 0 < dlen then dres.1 else []
  let a3 := appendBytes a2 dw
  if r.found = true ∨ 0 < dlen then
    let hb := fileRecBytes env f
    ({ arch := writeBytes a3 p hb,
       events := st.events ++ (Ev.hdrWrite p :: (r.consults ++ [Ev.hdrWrite p])),
       headers := st.headers ++ [(p, hb)],
       brackets := st.brackets },
     112 + r.written.length + dw.length, r.rlen + dlen + 112)
  else
    ({ arch := a3,
       events := st.events ++ (Ev.hdrWrite p :: r.consults),
       headers := st.headers,
       brackets := st.brackets }, 0, 0)

/-- `startFolder` / `endFolder` compression-method codes (sit.h). -/

def startFolder : Nat := 32

def endFolder : Nat := 33

/-- The folder bracket record built by `put_folder_entry`: directory name,
`stat` dates, bracket method codes, the uncompressed total in `dLen` and
the open-to-here byte span in `cDLen`. -/

def folderFH (env : Env) (d : DirInfo) (unc span mtype : Nat) : FH :=
  { fh0 with
    compRMethod := mtype
    compDMethod := mtype
    fName := pstr (convertName d.name 63)
    cDate := cp4 (d.ctime + env.tdiff)
    mDate := cp4 (d.mtime + env.tdiff)
    dLen := cp4 unc
    cDLen := cp4 span }

/-- The finalized folder-record bytes of a closed bracket (`mtype` is
`startFolder` for the patched open record, `endFolder` for the close). -/

def bracketRecBytes (env : Env) (b : Bracket) (mtype : Nat) : List Nat :=
  fhBytes (setCRC env (folderFH env b.d b.unc (b.ePos - b.sPos) mtype))

/-- `put_folder_entry`: reserve an empty header, build and rewrite the
finalized record; on `endFolder` additionally patch the matching open
record at `startPos` with the same fields and `startFolder` method codes.
Returns the new state, the entry's compressed length (the constant header
size) and `*uncompressedLen + sizeof(fh)`. -/

def putFolderEntryM (env : Env) (st : EncSt) (d : DirInfo) (startPos : Nat)
    (unc : Nat) (mtype : Nat) : EncSt × Nat × Nat :=
  let p := st.arch.len
  let a1 := appendBytes st.arch (List.replicate 112 0)
  let fh := setCRC env (folderFH env d unc (p - startPos) mtype)
  let a2 := writeBytes a1 p (fhBytes fh)
  if mtype = endFolder then
    let fh2 := setCRC env { fh with compRMethod := startFolder, compDMethod := startFolder }
    let a3 := writeBytes a2 startPos (fhBytes fh2)
    ({ arch := a3,
       events := st.events ++ [Ev.hdrWrite p, Ev.hdrWrite p, Ev.hdrWrite startPos],
       headers := st.headers ++ [(startPos, fhBytes fh2), (p, fhBytes fh)],
       brackets := st.brackets ++ [⟨startPos, p, unc, d⟩] }, 112, unc + 112)
  else
    ({ arch := a2,
       events := st.events ++ [Ev.hdrWrite p, Ev.hdrWrite p],
       headers := st.headers,
       brackets := st.brackets }, 112, unc + 112)

/-- The `.DS_Store` name skipped by `put_folder`. -/

def dsStoreName : List Nat := [46, 68, 83, 95, 83, 116, 111, 114, 101]

/-- The `put_folder` skip test: only plain files named `.DS_Store`. -/

def isDSStoreFile : FSItem → Bool
  | FSItem.file f => f.name = dsStoreName
  | FSItem.dir _ _ => false

mutual

/-- `put_item` / the per-entry branch of `put_folder`: a directory is
bracketed by its open and close records around its recursively encoded
contents; a plain file goes through `put_file`.  The `Nat` fuel drives the
structural recursion; the caller supplies at least `sizeOf` the item, which
every path consumes strictly slower than the tree is deep. -/
def putItemF (env : Env) : Nat → EncSt → FSItem → EncSt × Nat × Nat
  | 0, st, _ => (st, 0, 0)
  | _ + 1, st, FSItem.file f => putFileM env st f
  | k + 1, st, FSItem.dir d cs =>
    let sPos := st.arch.len
    let r1 := putFolderEntryM env st d sPos 0 startFolder
    let r2 := putListF env k r1.1 cs
    let r3 := putFolderEntryM env r2.1 d sPos (r1.2.2 + r2.2.2) endFolder
    (r3.1, r1.2.1 + r2.2.1 + r3.2.1, r3.2.2)

/-- The `readdir` loop of `put_folder`: encode every entry in order,
skipping `.DS_Store` files, summing compressed and uncompressed lengths. -/
def putListF (env : Env) : Nat → EncSt → List FSItem → EncSt × Nat × Nat
  | 0, st, _ => (st, 0, 0)
  | _ + 1, st, [] => (st, 0, 0)
  | k + 1, st, it :: rest =>
    if isDSStoreFile it then putListF env k st rest
    else
      let r1 := putItemF env k st it
      let r2 := putListF env k r1.1 rest
      (r2.1, r1.2.1 + r2.2.1, r1.2.2 + r2.2.2)

end

mutual

/-- Structural size of a tree item, used as recursion fuel: strictly more
than the fuel any encoding path consumes. -/
def fuelItem : FSItem → Nat
  | FSItem.file _ => 1
  | FSItem.dir _ cs => fuelList cs + 1

def fuelList : List FSItem → Nat
  | [] => 1
  | it :: rest => fuelItem it + fuelList rest + 1

end

/-- The 22-byte archive header (`sitHdr`, sit.h) with the signatures,
`numFiles` and `arcLen` filled in. -/

def sitHdrBytes (items total : Nat) : List Nat :=
  [83, 73, 84, 33] ++ cp2 items ++ cp4 total ++ [114, 76, 97, 117] ++
  1 :: List.replicate 7 0

/-- The argument loop of `main`: encode each argument, counting an item
only when it reported a nonzero compressed length.  Returns the state, the
compressed and item totals, the uncompressed total, and each argument's
reported length. -/

def runArgs (env : Env) (st : EncSt) :
    List FSItem → EncSt × Nat × Nat × Nat × List Nat
  | [] => (st, 0, 0, 0, [])
  | it :: rest =>
    let r1 := putItemF env (fuelItem it) st it
    let r2 := runArgs env r1.1 rest
    (r2.1, r1.2.1 + r2.2.1, (if r1.2.1 ≠ 0 then 1 else 0) + r2.2.2.1,
     r1.2.2 + r2.2.2.2.1, r1.2.1 :: r2.2.2.2.2)

/-- The result of a whole archiving run. -/

structure RunRes where
  st : EncSt
  total : Nat
  items : Nat
  unc : Nat
  ns : List Nat

/-- `main`: write the empty archive header, encode every argument, then
seek back and rewrite the finalized archive header. -/

def runSit (env : Env) (args : List FSItem) : RunRes :=
  let st0 : EncSt := ⟨appendBytes arch0 (List.replicate 22 0), [], [], []⟩
  let r := runArgs env st0 args
  let total := r.2.1 + 22
  let items := r.2.2.1
  ⟨{ r.1 with arch := writeBytes r.1.arch 0 (sitHdrBytes items total) },
   total, items, r.2.2.2.1 + 22, r.2.2.2.2⟩

/-- Whether a top-level argument contributes bytes to the archive: every
directory does (its bracket records), a file does exactly when it has a
resolvable secondary fork or a non-empty primary stream. -/

def fileHasFork (f : FileNode) : Bool :=
  decide (0 < getADRsrcSize f) ||
  (match f.rsrcFile with | some c => decide (0 < c.length) | none => false) ||
  (match f.namedFork with | some c => decide (0 < c.length) | none => false)

def contributes : FSItem → Bool
  | FSItem.file f => fileHasFork f || decide (0 < f.data.length)
  | FSItem.dir _ _ => true

/-! ## Field accessors on a serialized 112-byte entry record -/

def hdrName (b : List Nat) : List Nat := (b.drop 2).take 64

def hdrCDate (b : List Nat) : List Nat := (b.drop 76).take 4

def hdrMDate (b : List Nat) : List Nat := (b.drop 80).take 4

def hdrRLen (b : List Nat) : List Nat := (b.drop 84).take 4

def hdrDLen (b : List Nat) : List Nat := (b.drop 88).take 4

def hdrCRLen (b : List Nat) : List Nat := (b.drop 92).take 4

def hdrCDLen (b : List Nat) : List Nat := (b.drop 96).take 4

def hdrRsrcCRC (b : List Nat) : List Nat := (b.drop 100).take 2

def hdrDataCRC (b : List Nat) : List Nat := (b.drop 102).take 2

def hdrCRCField (b : List Nat) : List Nat := (b.drop 110).take 2

/-! ## Record-layout lemmas -/

def crcOK (env : Env) (b : List Nat) : Prop :=
  b.length = 112 ∧ hdrCRCField b = cp2 (env.updcrc 0 (b.take 110))

def encEntry (e : ADEntry) : List Nat := cp4 e.id ++ cp4 e.offset ++ cp4 e.size

@[simp] theorem encEntry_length (e : ADEntry) : (encEntry e).length = 12 := by
  simp [encEntry]

/-- A well-formed AppleDouble container: magic, 20 filler bytes up to the
entry count at offset 24, the count, the descriptor table, then the rest of
the file. -/

def mkADContent (filler : List Nat) (es : List ADEntry) (extra : List Nat) : List Nat :=
  cp4 adMagic ++ filler ++ cp2 es.length ++ (es.map encEntry).flatten ++ extra

/-- In-bounds field values of a descriptor (the C fields are `uint32_t`). -/

def entryBounded (e : ADEntry) : Prop :=
  e.id < 4294967296 ∧ e.offset < 4294967296 ∧ e.size < 4294967296

instance (e : ADEntry) : Decidable (entryBounded e) :=
  inferInstanceAs (Decidable (_ ∧ _ ∧ _))

/-- The scanning loop returns the first descriptor whose identifier
matches, wherever it sits in the table. -/

def StepGood (env : Env) (st st' : EncSt) : Prop :=
  st.arch.len ≤ st'.arch.len ∧
  (∀ i, i < st.arch.len → st'.arch.f i = st.arch.f i) ∧
  ∃ de dh db,
    st'.events = st.events ++ de ∧
    st'.headers = st.headers ++ dh ∧
    st'.brackets = st.brackets ++ db ∧
    (∀ off, Ev.hdrWrite off ∈ de → st.arch.len ≤ off ∧ off + 112 ≤ st'.arch.len) ∧
    (∀ p ∈ dh, st.arch.len ≤ p.1 ∧ p.1 + 112 ≤ st'.arch.len ∧
      readBytes st'.arch p.1 112 = p.2 ∧ crcOK env p.2 ∧
      countWrites de p.1 = (if p.2.getD 0 0 = startFolder then 3 else 2)) ∧
    (∀ off, Ev.hdrWrite off ∈ de → off ∉ dh.map Prod.fst → countWrites de off = 1) ∧
    (∀ b ∈ db, st.arch.len ≤ b.sPos ∧ b.sPos + 112 ≤ b.ePos ∧
      b.ePos + 112 ≤ st'.arch.len ∧
      (b.sPos, bracketRecBytes env b startFolder) ∈ dh ∧
      (b.ePos, bracketRecBytes env b endFolder) ∈ dh)

def folderFHTail (env : Env) (d : DirInfo) (unc span : Nat) : List Nat :=
  field 64 (pstr (convertName d.name 63)) ++ field 4 [] ++ field 4 [] ++ field 2 [] ++
  field 4 (cp4 (d.ctime + env.tdiff)) ++ field 4 (cp4 (d.mtime + env.tdiff)) ++
  field 4 [] ++ field 4 (cp4 unc) ++ field 4 [] ++ field 4 (cp4 span) ++
  field 2 [] ++ field 2 [] ++ field 6 [] ++ field 2 []

def updcrc0 : Nat → List Nat → Nat := fun s l => (s + l.sum) % 65536

def env0 : Env := ⟨updcrc0, fun l => l, false, [84, 69, 88, 84], [75, 65, 72, 76], 0⟩

def envG : Env := ⟨updcrc0, fun l => l ++ [0], false, [84, 69, 88, 84], [75, 65, 72, 76], 0⟩

def envU : Env := ⟨updcrc0, fun l => l, true, [84, 69, 88, 84], [75, 65, 72, 76], 0⟩

def emptyFile : FileNode := ⟨[102], none, none, none, [], none, 0, 0⟩

def dirD : DirInfo := ⟨[68], 5, 6⟩

def cexDir : FSItem := FSItem.dir dirD [FSItem.file emptyFile]

def fData : FileNode := ⟨[97], none, none, none, [65, 10, 66], none, 0, 0⟩

def fOne : FileNode := ⟨[97], none, none, none, [65], none, 0, 0⟩

def adContent : List Nat :=
  mkADContent (List.replicate 20 0) [⟨resourceForkId, 38, 5⟩] [9, 8, 7, 6, 5]

def fAD : FileNode := ⟨[97], some adContent, none, none, [], none, 0, 0⟩

def st0Demo : EncSt := ⟨appendBytes arch0 (List.replicate 22 0), [], [], []⟩

/-! ## Auxiliary run-level facts -/

theorem be16_cp2 (x : Nat) : be16 (cp2 x) = x % 65536 := by
  simp only [be16, cp2]
  norm_num [List.getD]
  omega

theorem be32_cp4 (x : Nat) : be32 (cp4 x) = x % 4294967296 := by
  simp only [be32, cp4]
  norm_num [List.getD]
  omega

/-- A fixed-width struct field: the C struct member of width `n` holds the
written bytes followed by the zero bytes left over from `memset(&fh,0,…)`. -/

theorem field_of_length {n : Nat} {l : List Nat} (h : l.length = n) : field n l = l := by
  simp [field, h, List.take_of_length_le (le_of_eq h)]

/-- `strncpy(dst, src, n)` into a zeroed buffer: copy until the first NUL
byte, zero-fill the rest of the `n`-byte field. -/

theorem writeBytes_len_of_le {a : Arch} {off : Nat} {b : List Nat}
    (h : off + b.length ≤ a.len) : (writeBytes a off b).len = a.len := by
  simp [writeBytes]; omega

theorem writeBytes_f_lt {a : Arch} {off : Nat} {b : List Nat} {i : Nat}
    (h : i < off) : (writeBytes a off b).f i = a.f i := by
  simp only [writeBytes]
  rw [if_neg]; omega

theorem writeBytes_f_ge {a : Arch} {off : Nat} {b : List Nat} {i : Nat}
    (h : off + b.length ≤ i) : (writeBytes a off b).f i = a.f i := by
  simp only [writeBytes]
  rw [if_neg]; omega

theorem writeBytes_f_in {a : Arch} {off : Nat} {b : List Nat} {i : Nat}
    (h1 : off ≤ i) (h2 : i < off + b.length) :
    (writeBytes a off b).f i = b.getD (i - off) 0 := by
  simp only [writeBytes]
  rw [if_pos ⟨h1, h2⟩]

/-- Reading a region whose bytes agree pointwise gives the same result. -/

theorem readBytes_congr {a a' : Arch} {off n : Nat}
    (h : ∀ i, off ≤ i → i < off + n → a'.f i = a.f i) :
    readBytes a' off n = readBytes a off n := by
  simp only [readBytes]
  refine List.map_congr_left ?_
  intro i hi
  exact h (off + i) (Nat.le_add_right _ _) (by simpa using List.mem_range.mp hi)

theorem map_getD_range (b : List Nat) :
    (List.range b.length).map (fun i => b.getD i 0) = b := by
  apply List.ext_getElem
  · simp
  · intro i h1 h2
    simp [List.getD_eq_getElem?_getD, List.getElem?_eq_getElem h2]

/-- Reading back a region just written returns the written bytes. -/

theorem readBytes_writeBytes_self (a : Arch) (off : Nat) (b : List Nat) :
    readBytes (writeBytes a off b) off b.length = b := by
  simp only [readBytes]
  have : ∀ i ∈ List.range b.length,
      (writeBytes a off b).f (off + i) = b.getD i 0 := by
    intro i hi
    have hi' := List.mem_range.mp hi
    rw [writeBytes_f_in (Nat.le_add_right _ _) (by omega)]
    congr 1
    omega
  rw [List.map_congr_left this, map_getD_range]

theorem readBytes_writeBytes_left {a : Arch} {off : Nat} {b : List Nat}
    {o n : Nat} (h : o + n ≤ off) :
    readBytes (writeBytes a off b) o n = readBytes a o n := by
  refine readBytes_congr ?_
  intro i _ hi2
  exact writeBytes_f_lt (by omega)

theorem readBytes_writeBytes_right {a : Arch} {off : Nat} {b : List Nat}
    {o n : Nat} (h : off + b.length ≤ o) :
    readBytes (writeBytes a off b) o n = readBytes a o n := by
  refine readBytes_congr ?_
  intro i hi1 _
  exact writeBytes_f_ge (by omega)

theorem readBytes_appendBytes_self (a : Arch) (b : List Nat) :
    readBytes (appendBytes a b) a.len b.length = b :=
  readBytes_writeBytes_self a a.len b

theorem appendBytes_f_lt {a : Arch} {b : List Nat} {i : Nat} (h : i < a.len) :
    (appendBytes a b).f i = a.f i := writeBytes_f_lt h

/-! ## Legacy name transcoder (`convertFilesystemNameToMacRoman`, sit.c) -/

/-- `hiBitCharMap` from sit.c: each group is (UTF-8 byte 1, byte 2, byte 3 or
0 for 2-byte sequences, MacRoman byte). -/

theorem field_drop_of_le {n k : Nat} (l : List Nat) (h : n ≤ k) :
    (field n l).drop k = [] :=
  List.drop_eq_nil_of_le (by simpa using h)

theorem field_take_of_le {n k : Nat} (l : List Nat) (h : n ≤ k) :
    (field n l).take k = field n l :=
  List.take_of_length_le (by simpa using h)

theorem hdrName_fhBytes (h : FH) : hdrName (fhBytes h) = field 64 h.fName := by
  simp +decide [hdrName, fhBytes, List.drop_append_eq_append_drop,
    List.take_append_eq_append_take, field_drop_of_le, field_take_of_le]

theorem hdrCDate_fhBytes (h : FH) : hdrCDate (fhBytes h) = field 4 h.cDate := by
  simp +decide [hdrCDate, fhBytes, List.drop_append_eq_append_drop,
    List.take_append_eq_append_take, field_drop_of_le, field_take_of_le]

theorem hdrMDate_fhBytes (h : FH) : hdrMDate (fhBytes h) = field 4 h.mDate := by
  simp +decide [hdrMDate, fhBytes, List.drop_append_eq_append_drop,
    List.take_append_eq_append_take, field_drop_of_le, field_take_of_le]

theorem hdrRLen_fhBytes (h : FH) : hdrRLen (fhBytes h) = field 4 h.rLen := by
  simp +decide [hdrRLen, fhBytes, List.drop_append_eq_append_drop,
    List.take_append_eq_append_take, field_drop_of_le, field_take_of_le]

theorem hdrDLen_fhBytes (h : FH) : hdrDLen (fhBytes h) = field 4 h.dLen := by
  simp +decide [hdrDLen, fhBytes, List.drop_append_eq_append_drop,
    List.take_append_eq_append_take, field_drop_of_le, field_take_of_le]

theorem hdrCRLen_fhBytes (h : FH) : hdrCRLen (fhBytes h) = field 4 h.cRLen := by
  simp +decide [hdrCRLen, fhBytes, List.drop_append_eq_append_drop,
    List.take_append_eq_append_take, field_drop_of_le, field_take_of_le]

theorem hdrCDLen_fhBytes (h : FH) : hdrCDLen (fhBytes h) = field 4 h.cDLen := by
  simp +decide [hdrCDLen, fhBytes, List.drop_append_eq_append_drop,
    List.take_append_eq_append_take, field_drop_of_le, field_take_of_le]

theorem hdrDataCRC_fhBytes (h : FH) : hdrDataCRC (fhBytes h) = field 2 h.dataCRC := by
  simp +decide [hdrDataCRC, fhBytes, List.drop_append_eq_append_drop,
    List.take_append_eq_append_take, field_drop_of_le, field_take_of_le]

theorem hdrCRCField_fhBytes (h : FH) : hdrCRCField (fhBytes h) = field 2 h.hdrCRC := by
  simp +decide [hdrCRCField, fhBytes, List.drop_append_eq_append_drop,
    List.take_append_eq_append_take, field_drop_of_le, field_take_of_le]

/-- The first 110 bytes of the serialized record do not involve the
checksum field. -/

theorem fhBytes_take_110 (h : FH) (crc : List Nat) :
    (fhBytes { h with hdrCRC := crc }).take 110 = (fhBytes h).take 110 := by
  simp +decide [fhBytes, List.take_append_eq_append_take, field_take_of_le,
    field_drop_of_le]

theorem fhBytes_setCRC_take_110 (env : Env) (h : FH) :
    (fhBytes (setCRC env h)).take 110 = (fhBytes h).take 110 :=
  fhBytes_take_110 h _

/-- The finalized record decomposes as its first 110 bytes followed by the
encoded checksum of exactly those bytes. -/

theorem setCRC_spec (env : Env) (h : FH) :
    hdrCRCField (fhBytes (setCRC env h)) =
      cp2 (env.updcrc 0 ((fhBytes (setCRC env h)).take 110)) := by
  rw [fhBytes_setCRC_take_110]
  show hdrCRCField (fhBytes { h with hdrCRC := cp2 (env.updcrc 0 ((fhBytes h).take 110)) }) = _
  rw [hdrCRCField_fhBytes]
  exact field_of_length (by simp)

/-- The well-formedness of a finalized record that the run invariant
carries: 112 bytes whose trailing checksum field is the CRC of the first
110 bytes. -/

theorem crcOK_setCRC (env : Env) (h : FH) : crcOK env (fhBytes (setCRC env h)) :=
  ⟨fhBytes_length _, setCRC_spec env h⟩

/-- A finalized record is its first 110 bytes followed by their encoded
checksum. -/

theorem fhBytes_setCRC_decomp (env : Env) (h : FH) :
    fhBytes (setCRC env h) =
      (fhBytes h).take 110 ++ cp2 (env.updcrc 0 ((fhBytes h).take 110)) := by
  have hsplit := List.take_append_drop 110 (fhBytes (setCRC env h))
  have hdrop : (fhBytes (setCRC env h)).drop 110 =
      cp2 (env.updcrc 0 ((fhBytes h).take 110)) := by
    have hl : ((fhBytes (setCRC env h)).drop 110).length = 2 := by simp
    have := setCRC_spec env h
    rw [hdrCRCField, List.take_of_length_le (le_of_eq hl), fhBytes_setCRC_take_110] at this
    exact this
  rw [← hsplit, fhBytes_setCRC_take_110, hdrop]

/-- Re-finalizing after a method-code change ignores the stale checksum
value: patching the open record from the close record's finalized struct
gives the same bytes as building it afresh. -/

theorem fhBytes_setCRC_update (env : Env) (h : FH) (m1 m2 : Nat) :
    fhBytes (setCRC env { setCRC env h with compRMethod := m1, compDMethod := m2 }) =
      fhBytes (setCRC env { h with compRMethod := m1, compDMethod := m2 }) := by
  rw [fhBytes_setCRC_decomp, fhBytes_setCRC_decomp]
  have e : { setCRC env h with compRMethod := m1, compDMethod := m2 } =
      { { h with compRMethod := m1, compDMethod := m2 } with
        hdrCRC := cp2 (env.updcrc 0 ((fhBytes h).take 110)) } := rfl
  rw [e, fhBytes_take_110]

/-! ## Transcoder lemmas (claim C8) -/

/-- Every byte the table scan can emit is a fourth component of a table
group. -/

theorem scanMap_result {c : Nat} {p1 p2 : Option Nat} {r : Nat}
    {t : List (Nat × Nat × Nat × Nat)} {m : Nat} {k : Bool}
    (h : scanMap c p1 p2 r t = some (m, k)) : ∃ g ∈ t, g.2.2.2 = m := by
  induction t with
  | nil => simp [scanMap] at h
  | cons g rest ih =>
    obtain ⟨u0, u1, u2, mg⟩ := g
    rw [scanMap] at h
    split at h
    · split at h
      · refine ⟨(u0, u1, u2, mg), by simp, ?_⟩
        simp at h
        show mg = m
        exact h.1
      · split at h
        · refine ⟨(u0, u1, u2, mg), by simp, ?_⟩
          simp at h
          show mg = m
          exact h.1
        · obtain ⟨g', hg', he⟩ := ih h
          exact ⟨g', by simp [hg'], he⟩
    · obtain ⟨g', hg', he⟩ := ih h
      exact ⟨g', by simp [hg'], he⟩

/-- Every MacRoman byte in the mapping table is an extended character. -/

theorem hiBitCharMap_out_ge : ∀ g ∈ hiBitCharMap, 128 ≤ g.2.2.2 := by decide

/-- No byte emitted by the transcoding loop is ever the path separator. -/

theorem convGo_ne_58 : ∀ (F : Nat) (bytes : List Nat) (r b : Nat),
    b ∈ convGo F bytes r → b ≠ 58 := by
  intro F
  induction F with
  | zero => intro bytes r b hb; simp [convGo] at hb
  | succ F ih =>
    intro bytes r b hb
    match bytes, r with
    | _, 0 => simp [convGo] at hb
    | [], _ + 1 => simp [convGo] at hb
    | c :: rest, r' + 1 =>
      rw [convGo] at hb
      by_cases h1 : 128 ≤ c ∧ 0 < r'
      · rw [if_pos h1] at hb
        cases hscan : scanMap c rest.head? (rest.drop 1).head? (r' + 1) hiBitCharMap with
        | none =>
          rw [hscan] at hb
          rcases List.mem_cons.mp hb with hb | hb
          · omega
          · exact ih _ _ _ hb
        | some v =>
          obtain ⟨m, k⟩ := v
          obtain ⟨g, hg, he⟩ := scanMap_result hscan
          have hm : 128 ≤ m := he ▸ hiBitCharMap_out_ge g hg
          cases k with
          | false =>
            rw [hscan] at hb
            rcases List.mem_cons.mp hb with hb | hb
            · omega
            · exact ih _ _ _ hb
          | true =>
            rw [hscan] at hb
            rcases List.mem_cons.mp hb with hb | hb
            · omega
            · exact ih _ _ _ hb
      · rw [if_neg h1] at hb
        rcases List.mem_cons.mp hb with hb | hb
        · subst hb
          split
          · omega
          · next hc => exact hc
        · exact ih _ _ _ hb

/-! ## Sidecar parser lemmas (claim C9) -/

/-- A serialized 12-byte entry descriptor. -/

theorem findLoop_spec (tid : Nat) :
    ∀ (es : List ADEntry) (c extra : List Nat) (pos : Nat),
      c.drop pos = (es.map encEntry).flatten ++ extra →
      (∀ e ∈ es, entryBounded e) →
      findLoop c tid es.length pos = es.find? (fun e => e.id == tid) := by
  intro es
  induction es with
  | nil => intro c extra pos _ _; simp [findLoop]
  | cons e rest ih =>
    intro c extra pos hc hb
    have hdec : c.drop pos = encEntry e ++ ((rest.map encEntry).flatten ++ extra) := by
      simpa [List.append_assoc] using hc
    have heb : (c.drop pos).take 12 = encEntry e := by
      rw [hdec]; exact List.take_left' (by simp)
    obtain ⟨hb1, hb2, hb3⟩ := hb e (by simp)
    have hid : be32 ((encEntry e).take 4) = e.id := by
      rw [encEntry, List.append_assoc, List.take_left' (by simp), be32_cp4,
        Nat.mod_eq_of_lt hb1]
    rw [List.length_cons, findLoop]
    simp only [heb, encEntry_length, hid]
    rw [if_neg (by omega)]
    by_cases he : e.id = tid
    · rw [if_pos he, List.find?_cons_of_pos _ (by simpa using he)]
      have hoff : be32 (((encEntry e).drop 4).take 4) = e.offset := by
        rw [encEntry, List.append_assoc, List.drop_left' (by simp),
          List.take_left' (by simp), be32_cp4, Nat.mod_eq_of_lt hb2]
      have hsize : be32 (((encEntry e).drop 8).take 4) = e.size := by
        rw [encEntry, show cp4 e.id ++ cp4 e.offset ++ cp4 e.size =
          (cp4 e.id ++ cp4 e.offset) ++ cp4 e.size from by simp [List.append_assoc],
          List.drop_left' (by simp), List.take_of_length_le (by simp)]
        rw [be32_cp4, Nat.mod_eq_of_lt hb3]
      rw [hoff, hsize]
    · rw [if_neg he, List.find?_cons_of_neg _ (by simpa using he)]
      refine ih c extra (pos + 12) ?_ (fun x hx => hb x (by simp [hx]))
      rw [← List.drop_drop, hdec, List.drop_left' (by simp)]

/-- The scanning loop fails cleanly when the declared count exceeds the
readable table and no earlier descriptor matched. -/

theorem findLoop_truncated (tid : Nat) :
    ∀ (es : List ADEntry) (c extra : List Nat) (pos k : Nat),
      c.drop pos = (es.map encEntry).flatten ++ extra →
      (∀ e ∈ es, entryBounded e) →
      (∀ e ∈ es, e.id ≠ tid) →
      extra.length < 12 →
      findLoop c tid (es.length + k + 1) pos = none := by
  intro es
  induction es with
  | nil =>
    intro c extra pos k hc _ _ hx
    rw [findLoop]
    simp only [List.map_nil, List.flatten_nil, List.nil_append] at hc
    rw [if_pos]
    simp [hc]
    omega
  | cons e rest ih =>
    intro c extra pos k hc hb hm hx
    have hdec : c.drop pos = encEntry e ++ ((rest.map encEntry).flatten ++ extra) := by
      simpa [List.append_assoc] using hc
    have heb : (c.drop pos).take 12 = encEntry e := by
      rw [hdec]; exact List.take_left' (by simp)
    obtain ⟨hb1, _, _⟩ := hb e (by simp)
    have hid : be32 ((encEntry e).take 4) = e.id := by
      rw [encEntry, List.append_assoc, List.take_left' (by simp), be32_cp4,
        Nat.mod_eq_of_lt hb1]
    have : (e :: rest).length + k + 1 = (rest.length + k + 1) + 1 := by simp; omega
    rw [this, findLoop]
    simp only [heb, encEntry_length, hid]
    rw [if_neg (by omega), if_neg (hm e (by simp))]
    refine ih c extra (pos + 12) k ?_ (fun x hx => hb x (by simp [hx]))
      (fun x hx => hm x (by simp [hx])) hx
    rw [← List.drop_drop, hdec, List.drop_left' (by simp)]


/-- On a well-formed container the parser returns exactly the first
descriptor with the requested identifier, wherever it sits in the table. -/

theorem findEntry_mkAD (filler : List Nat) (es : List ADEntry) (extra : List Nat)
    (tid : Nat) (hf : filler.length = 20) (hn : es.length < 65536)
    (hb : ∀ e ∈ es, entryBounded e) :
    findEntry (mkADContent filler es extra) tid = es.find? (fun e => e.id == tid) := by
  have hre : mkADContent filler es extra =
      ((cp4 adMagic ++ filler) ++ cp2 es.length) ++
        ((es.map encEntry).flatten ++ extra) := by
    simp [mkADContent, List.append_assoc]
  have hlen : 26 ≤ (mkADContent filler es extra).length := by
    rw [hre]
    simp [hf]
    omega
  have hmagic : be32 ((mkADContent filler es extra).take 4) = adMagic := by
    rw [show mkADContent filler es extra = cp4 adMagic ++
      (filler ++ (cp2 es.length ++ ((es.map encEntry).flatten ++ extra))) from by
        simp [mkADContent, List.append_assoc]]
    rw [List.take_left' (by simp), be32_cp4]
    decide
  have hcount : be16 (((mkADContent filler es extra).drop 24).take 2) = es.length := by
    rw [show mkADContent filler es extra = (cp4 adMagic ++ filler) ++
      (cp2 es.length ++ ((es.map encEntry).flatten ++ extra)) from by
        simp [mkADContent, List.append_assoc]]
    rw [List.drop_left' (by simp [hf]), List.take_left' (by simp), be16_cp2,
      Nat.mod_eq_of_lt hn]
  rw [findEntry, if_neg (by omega), if_neg (by rw [hmagic]; simp), hcount]
  refine findLoop_spec tid es _ extra 26 ?_ hb
  rw [hre, List.drop_left' (by simp [hf])]

/-- A truncated header read fails the parse. -/

theorem findEntry_short (c : List Nat) (tid : Nat) (h : c.length < 26) :
    findEntry c tid = none := by
  rw [findEntry, if_pos h]

/-- An unrecognized magic number fails the parse. -/

theorem findEntry_badMagic (c : List Nat) (tid : Nat)
    (h : be32 (c.take 4) ≠ adMagic) : findEntry c tid = none := by
  unfold findEntry
  split
  · rfl
  · simp [h]

/-- A declared entry count that runs past the readable table fails the
parse when no earlier descriptor matched. -/

theorem findEntry_truncated (filler : List Nat) (es : List ADEntry)
    (short : List Nat) (tid k : Nat) (hf : filler.length = 20)
    (hn : es.length + k + 1 < 65536) (hb : ∀ e ∈ es, entryBounded e)
    (hm : ∀ e ∈ es, e.id ≠ tid) (hx : short.length < 12) :
    findEntry (cp4 adMagic ++ filler ++ cp2 (es.length + k + 1) ++
      (es.map encEntry).flatten ++ short) tid = none := by
  set c := cp4 adMagic ++ filler ++ cp2 (es.length + k + 1) ++
      (es.map encEntry).flatten ++ short with hcdef
  have hre : c = ((cp4 adMagic ++ filler) ++ cp2 (es.length + k + 1)) ++
      ((es.map encEntry).flatten ++ short) := by
    simp [hcdef, List.append_assoc]
  have hlen : 26 ≤ c.length := by
    rw [hre]
    simp [hf]
    omega
  have hmagic : be32 (c.take 4) = adMagic := by
    rw [show c = cp4 adMagic ++ (filler ++ (cp2 (es.length + k + 1) ++
      ((es.map encEntry).flatten ++ short))) from by simp [hcdef, List.append_assoc]]
    rw [List.take_left' (by simp), be32_cp4]
    decide
  have hcount : be16 ((c.drop 24).take 2) = es.length + k + 1 := by
    rw [show c = (cp4 adMagic ++ filler) ++ (cp2 (es.length + k + 1) ++
      ((es.map encEntry).flatten ++ short)) from by simp [hcdef, List.append_assoc]]
    rw [List.drop_left' (by simp [hf]), List.take_left' (by simp), be16_cp2,
      Nat.mod_eq_of_lt hn]
  rw [findEntry, if_neg (by omega), if_neg (by rw [hmagic]; simp), hcount]
  refine findLoop_truncated tid es c short 26 k ?_ hb hm hx
  rw [hre, List.drop_left' (by simp [hf])]



/-! ## The encoder run invariant

`StepGood env st st'` relates an encoder state to the state after encoding
one item (or item list): the archive only grows, bytes below the old end of
file are untouched, and the new event/header/bracket suffixes are
internally consistent — every finalized header is readable back from the
archive, carries a valid trailing checksum, and was written the right
number of times (twice, or three times for a folder-open record); a header
offset that was written but never finalized (a skipped file placeholder)
was written exactly once. -/

theorem countWrites_append (a b : List Ev) (off : Nat) :
    countWrites (a ++ b) off = countWrites a off + countWrites b off := by
  simp [countWrites]

theorem countWrites_eq_zero {evs : List Ev} {off : Nat}
    (h : Ev.hdrWrite off ∉ evs) : countWrites evs off = 0 := by
  rw [countWrites, List.length_eq_zero]
  rw [List.filter_eq_nil_iff]
  intro a ha
  simp only [decide_eq_true_eq]
  intro he
  exact h (he ▸ ha)

theorem countWrites_nil (off : Nat) : countWrites [] off = 0 := rfl

theorem countWrites_cons_self (off : Nat) (evs : List Ev) :
    countWrites (Ev.hdrWrite off :: evs) off = countWrites evs off + 1 := by
  simp [countWrites, List.filter_cons]

theorem countWrites_cons_ne {x off : Nat} (h : x ≠ off) (evs : List Ev) :
    countWrites (Ev.hdrWrite x :: evs) off = countWrites evs off := by
  simp [countWrites, List.filter_cons, h]

theorem countWrites_cons_consult (k off : Nat) (evs : List Ev) :
    countWrites (Ev.consult k :: evs) off = countWrites evs off := by
  simp [countWrites, List.filter_cons]

theorem stepGood_refl (env : Env) (st : EncSt) : StepGood env st st := by
  refine ⟨le_refl _, fun i _ => rfl, [], [], [], by simp, by simp, by simp,
    ?_, ?_, ?_, ?_⟩ <;> simp

theorem stepGood_trans {env : Env} {s1 s2 s3 : EncSt}
    (h12 : StepGood env s1 s2) (h23 : StepGood env s2 s3) :
    StepGood env s1 s3 := by
  obtain ⟨l12, p12, de1, dh1, db1, he1, hh1, hb1, hf1, hH1, hO1, hB1⟩ := h12
  obtain ⟨l23, p23, de2, dh2, db2, he2, hh2, hb2, hf2, hH2, hO2, hB2⟩ := h23
  refine ⟨le_trans l12 l23, ?_, de1 ++ de2, dh1 ++ dh2, db1 ++ db2, ?_, ?_, ?_, ?_, ?_, ?_, ?_⟩
  · intro i hi
    rw [p23 i (lt_of_lt_of_le hi l12), p12 i hi]
  · rw [he2, he1, List.append_assoc]
  · rw [hh2, hh1, List.append_assoc]
  · rw [hb2, hb1, List.append_assoc]
  · intro off hoff
    rcases List.mem_append.mp hoff with h | h
    · exact ⟨(hf1 off h).1, le_trans (hf1 off h).2 l23⟩
    · exact ⟨le_trans l12 (hf2 off h).1, (hf2 off h).2⟩
  · intro p hp
    rcases List.mem_append.mp hp with h | h
    · obtain ⟨hp1, hp2, hp3, hp4, hp5⟩ := hH1 p h
      refine ⟨hp1, le_trans hp2 l23, ?_, hp4, ?_⟩
      · rw [← hp3]
        refine readBytes_congr ?_
        intro i _ hi2
        exact p23 i (by omega)
      · rw [countWrites_append, hp5]
        have : Ev.hdrWrite p.1 ∉ de2 := by
          intro hmem
          have := (hf2 _ hmem).1
          omega
        rw [countWrites_eq_zero this]
        simp
    · obtain ⟨hp1, hp2, hp3, hp4, hp5⟩ := hH2 p h
      refine ⟨le_trans l12 hp1, hp2, hp3, hp4, ?_⟩
      rw [countWrites_append, hp5]
      have : Ev.hdrWrite p.1 ∉ de1 := by
        intro hmem
        have := (hf1 _ hmem).2
        omega
      rw [countWrites_eq_zero this]
      simp
  · intro off hoff hnot
    have hnot1 : off ∉ dh1.map Prod.fst := fun hm => hnot (by
      rw [List.map_append]; exact List.mem_append.mpr (Or.inl hm))
    have hnot2 : off ∉ dh2.map Prod.fst := fun hm => hnot (by
      rw [List.map_append]; exact List.mem_append.mpr (Or.inr hm))
    rcases List.mem_append.mp hoff with h | h
    · rw [countWrites_append, hO1 off h hnot1]
      have : Ev.hdrWrite off ∉ de2 := by
        intro hmem
        have h1 := (hf1 off h).2
        have h2 := (hf2 off hmem).1
        omega
      rw [countWrites_eq_zero this]
    · rw [countWrites_append, hO2 off h hnot2]
      have : Ev.hdrWrite off ∉ de1 := by
        intro hmem
        have h1 := (hf1 off hmem).2
        have h2 := (hf2 off h).1
        omega
      rw [countWrites_eq_zero this]
  · intro b hb
    rcases List.mem_append.mp hb with h | h
    · obtain ⟨q1, q2, q3, q4, q5⟩ := hB1 b h
      exact ⟨q1, q2, le_trans q3 l23, List.mem_append.mpr (Or.inl q4),
        List.mem_append.mpr (Or.inl q5)⟩
    · obtain ⟨q1, q2, q3, q4, q5⟩ := hB2 b h
      exact ⟨le_trans l12 q1, q2, q3, List.mem_append.mpr (Or.inr q4),
        List.mem_append.mpr (Or.inr q5)⟩



/-! ## Per-call steps of the invariant -/

/-- The resolver's event trail contains only strategy consultations. -/

theorem resolveRsrc_no_hdrWrite (env : Env) (f : FileNode) (off : Nat) :
    Ev.hdrWrite off ∉ (resolveRsrc env f).consults := by
  have h3 : Ev.hdrWrite off ∉ (resolveRsrc3 env f).consults := by
    rw [resolveRsrc3]
    rcases hnf : f.namedFork with _ | c
    · simp
    · dsimp only
      split <;> simp
  rw [resolveRsrc]
  dsimp only
  split
  · simp
  · rcases hrf : f.rsrcFile with _ | c
    · exact h3
    · dsimp only
      split
      · simp
      · exact h3

theorem fhBytes_getD0 (h : FH) : (fhBytes h).getD 0 0 = h.compRMethod := rfl

theorem setCRC_compRMethod (env : Env) (h : FH) :
    (setCRC env h).compRMethod = h.compRMethod := rfl

/-- A file record never carries a folder method code in its first byte. -/

theorem fileRecBytes_method_ne (env : Env) (f : FileNode) :
    (fileRecBytes env f).getD 0 0 ≠ startFolder := by
  rw [fileRecBytes]
  rw [fhBytes_getD0, setCRC_compRMethod]
  simp only [buildFileFH]
  split
  · split <;> simp [startFolder]
  · simp [startFolder]

/-- The generic `put_file` success step: placeholder, fork bytes, finalized
header rewrite. -/

theorem fileStepGood (env : Env) (st : EncSt) (w dw hb : List Nat) (cs : List Ev)
    (hhb : crcOK env hb) (hm : hb.getD 0 0 ≠ startFolder)
    (hcs : ∀ off, Ev.hdrWrite off ∉ cs) :
    StepGood env st
      ⟨writeBytes (appendBytes (appendBytes (appendBytes st.arch
          (List.replicate 112 0)) w) dw) st.arch.len hb,
        st.events ++ (Ev.hdrWrite st.arch.len :: (cs ++ [Ev.hdrWrite st.arch.len])),
        st.headers ++ [(st.arch.len, hb)], st.brackets⟩ := by
  obtain ⟨hbl, hbc⟩ := hhb
  set p := st.arch.len with hp
  set A3 := appendBytes (appendBytes (appendBytes st.arch (List.replicate 112 0)) w) dw
    with hA3
  have hl3 : A3.len = p + 112 + w.length + dw.length := by simp [hA3]
  have hwlen : (writeBytes A3 p hb).len = A3.len :=
    writeBytes_len_of_le (by omega)
  refine ⟨?_, ?_, Ev.hdrWrite p :: (cs ++ [Ev.hdrWrite p]), [(p, hb)], [],
    by rfl, by rfl, by dsimp only; simp,
    ?_, ?_, ?_, ?_⟩
  · dsimp only
    rw [hwlen]
    omega
  · intro i hi
    dsimp only
    rw [writeBytes_f_lt (by omega)]
    rw [hA3]
    rw [appendBytes_f_lt (by simp; omega), appendBytes_f_lt (by simp; omega),
      appendBytes_f_lt (by omega)]
  · intro off hoff
    dsimp only
    have : off = p := by
      rcases List.mem_cons.mp hoff with h | h
      · exact ((Ev.hdrWrite.injEq _ _).mp h.symm).symm
      · rcases List.mem_append.mp h with h | h
        · exact absurd h (hcs off)
        · simpa using h
    subst this
    rw [hwlen]
    omega
  · intro q hq
    rw [List.mem_singleton] at hq
    subst hq
    dsimp only
    refine ⟨le_refl _, by rw [hwlen]; omega, ?_, ⟨hbl, hbc⟩, ?_⟩
    · rw [show (112 : Nat) = hb.length from hbl.symm]
      exact readBytes_writeBytes_self A3 p hb
    · rw [if_neg hm]
      rw [show Ev.hdrWrite p :: (cs ++ [Ev.hdrWrite p]) =
        [Ev.hdrWrite p] ++ (cs ++ [Ev.hdrWrite p]) from rfl,
        countWrites_append, countWrites_append, countWrites_eq_zero (hcs p)]
      simp [countWrites]
  · intro off hoff hnot
    exfalso
    apply hnot
    have : off = p := by
      rcases List.mem_cons.mp hoff with h | h
      · exact ((Ev.hdrWrite.injEq _ _).mp h.symm).symm
      · rcases List.mem_append.mp h with h | h
        · exact absurd h (hcs off)
        · simpa using h
    simp [this]
  · intro b hb2
    simp at hb2

/-- The generic `put_file` skip step: only the empty placeholder is
written, nothing is finalized. -/

theorem skipStepGood (env : Env) (st : EncSt) (w dw : List Nat) (cs : List Ev)
    (hcs : ∀ off, Ev.hdrWrite off ∉ cs) :
    StepGood env st
      ⟨appendBytes (appendBytes (appendBytes st.arch (List.replicate 112 0)) w) dw,
        st.events ++ (Ev.hdrWrite st.arch.len :: cs), st.headers, st.brackets⟩ := by
  set p := st.arch.len with hp
  set A3 := appendBytes (appendBytes (appendBytes st.arch (List.replicate 112 0)) w) dw
    with hA3
  have hl3 : A3.len = p + 112 + w.length + dw.length := by simp [hA3]
  refine ⟨by dsimp only; omega, ?_, Ev.hdrWrite p :: cs, [], [],
    by dsimp only, by dsimp only; simp, by dsimp only; simp, ?_, ?_, ?_, ?_⟩
  · intro i hi
    dsimp only
    rw [hA3]
    rw [appendBytes_f_lt (by simp; omega), appendBytes_f_lt (by simp; omega),
      appendBytes_f_lt (by omega)]
  · intro off hoff
    dsimp only
    have : off = p := by
      rcases List.mem_cons.mp hoff with h | h
      · exact ((Ev.hdrWrite.injEq _ _).mp h.symm).symm
      · exact absurd h (hcs off)
    subst this
    omega
  · intro q hq
    simp at hq
  · intro off hoff _
    have : off = p := by
      rcases List.mem_cons.mp hoff with h | h
      · exact ((Ev.hdrWrite.injEq _ _).mp h.symm).symm
      · exact absurd h (hcs off)
    subst this
    rw [show Ev.hdrWrite p :: cs = [Ev.hdrWrite p] ++ cs from rfl,
      countWrites_append, countWrites_eq_zero (hcs p)]
    simp [countWrites]
  · intro b hb2
    simp at hb2

/-- `put_file` preserves the run invariant. -/

theorem putFileM_good (env : Env) (st : EncSt) (f : FileNode) :
    StepGood env st (putFileM env st f).1 := by
  by_cases hc : (resolveRsrc env f).found = true ∨ 0 < f.data.length
  · simp only [putFileM]
    rw [if_pos hc]
    exact fileStepGood env st _ _ _ _ (by rw [fileRecBytes]; exact crcOK_setCRC env _)
      (fileRecBytes_method_ne env f) (resolveRsrc_no_hdrWrite env f)
  · simp only [putFileM]
    rw [if_neg hc]
    exact skipStepGood env st _ _ _ (resolveRsrc_no_hdrWrite env f)



/-- The `startFolder` call of `put_folder_entry`, fully evaluated. -/

theorem putFolderEntryM_open (env : Env) (st : EncSt) (d : DirInfo) (sp unc : Nat) :
    putFolderEntryM env st d sp unc startFolder =
      ({ arch := writeBytes (appendBytes st.arch (List.replicate 112 0)) st.arch.len
           (fhBytes (setCRC env (folderFH env d unc (st.arch.len - sp) startFolder))),
         events := st.events ++ [Ev.hdrWrite st.arch.len, Ev.hdrWrite st.arch.len],
         headers := st.headers, brackets := st.brackets }, 112, unc + 112) := by
  simp only [putFolderEntryM]
  rw [if_neg (by decide : ¬(startFolder = endFolder))]

/-- The `endFolder` call of `put_folder_entry`, fully evaluated. -/

theorem putFolderEntryM_close (env : Env) (st : EncSt) (d : DirInfo) (sp unc : Nat) :
    putFolderEntryM env st d sp unc endFolder =
      ({ arch := writeBytes (writeBytes (appendBytes st.arch (List.replicate 112 0))
            st.arch.len
            (fhBytes (setCRC env (folderFH env d unc (st.arch.len - sp) endFolder))))
            sp
            (fhBytes (setCRC env { setCRC env (folderFH env d unc (st.arch.len - sp) endFolder) with
                compRMethod := startFolder, compDMethod := startFolder })),
         events := st.events ++ [Ev.hdrWrite st.arch.len, Ev.hdrWrite st.arch.len,
           Ev.hdrWrite sp],
         headers := st.headers ++
           [(sp, fhBytes (setCRC env { setCRC env (folderFH env d unc (st.arch.len - sp) endFolder) with
                compRMethod := startFolder, compDMethod := startFolder })),
            (st.arch.len, fhBytes (setCRC env (folderFH env d unc (st.arch.len - sp) endFolder)))],
         brackets := st.brackets ++ [⟨sp, st.arch.len, unc, d⟩] }, 112, unc + 112) := by
  simp only [putFolderEntryM]
  rw [if_pos trivial]

/-- The patched open record written at close time equals the record built
directly with the `startFolder` method codes. -/

theorem openRecBytes_eq (env : Env) (d : DirInfo) (unc span : Nat) :
    fhBytes (setCRC env { setCRC env (folderFH env d unc span endFolder) with
        compRMethod := startFolder, compDMethod := startFolder }) =
      fhBytes (setCRC env (folderFH env d unc span startFolder)) := by
  rw [fhBytes_setCRC_update]
  rfl

theorem folderRec_getD0 (env : Env) (d : DirInfo) (unc span mtype : Nat) :
    (fhBytes (setCRC env (folderFH env d unc span mtype))).getD 0 0 = mtype := rfl



/-- `put_item` on a directory preserves the run invariant: the folder-open
placeholder, the contents, the folder-close record, and the in-place patch
of the open record compose into one good step. -/

theorem dirStepGood (env : Env) (st : EncSt) (d : DirInfo) (cs : List FSItem)
    (k : Nat) (hlist : ∀ st0 : EncSt, StepGood env st0 (putListF env k st0 cs).1) :
    StepGood env st (putItemF env (k + 1) st (FSItem.dir d cs)).1 := by
  simp only [putItemF]
  rw [putFolderEntryM_open env st d st.arch.len 0]
  set S := st.arch.len with hS
  set provB := fhBytes (setCRC env (folderFH env d 0 (S - S) startFolder)) with hprovB
  dsimp only
  set st1 : EncSt := ⟨writeBytes (appendBytes st.arch (List.replicate 112 0)) S provB,
      st.events ++ [Ev.hdrWrite S, Ev.hdrWrite S], st.headers, st.brackets⟩ with hst1
  have hg2 := hlist st1
  set st2 := (putListF env k st1 cs).1 with hst2
  set u2 := (putListF env k st1 cs).2.2 with hu2
  rw [putFolderEntryM_close env st2 d S (0 + 112 + u2)]
  rw [openRecBytes_eq]
  set E := st2.arch.len with hE0
  set unc := 0 + 112 + u2 with hunc
  set openB := fhBytes (setCRC env (folderFH env d unc (E - S) startFolder)) with hopenB
  set closeB := fhBytes (setCRC env (folderFH env d unc (E - S) endFolder)) with hcloseB
  obtain ⟨l2, p2, de2, dh2, db2, he2, hh2, hb2, hf2, hH2, hO2, hB2⟩ := hg2
  have hplen : provB.length = 112 := by rw [hprovB]; simp
  have hoplen : openB.length = 112 := by rw [hopenB]; simp
  have hcllen : closeB.length = 112 := by rw [hcloseB]; simp
  have h1len : st1.arch.len = S + 112 := by
    rw [hst1]
    dsimp only
    rw [writeBytes_len_of_le (by simp [hplen])]
    simp
  have hSE : S + 112 ≤ E := by rw [hE0, ← h1len]; exact l2
  have h1pres : ∀ i, i < S → st1.arch.f i = st.arch.f i := by
    intro i hi
    rw [hst1]
    dsimp only
    rw [writeBytes_f_lt hi, appendBytes_f_lt (by omega)]
  -- the final archive
  set A3 := writeBytes (writeBytes (appendBytes st2.arch (List.replicate 112 0)) E closeB)
      S openB with hA3
  have hA3len : A3.len = E + 112 := by
    have hin : (writeBytes (appendBytes st2.arch (List.replicate 112 0)) E closeB).len =
        E + 112 := by
      rw [writeBytes_len_of_le (by simp [hcllen])]
      simp
    rw [hA3, writeBytes_len_of_le (by rw [hin]; omega), hin]
  have hA3pres : ∀ i, i < E → i < S ∨ S + 112 ≤ i → A3.f i = st2.arch.f i := by
    intro i hiE hiS
    rw [hA3]
    have h1 : (writeBytes (writeBytes (appendBytes st2.arch (List.replicate 112 0)) E closeB)
        S openB).f i = (writeBytes (appendBytes st2.arch (List.replicate 112 0)) E closeB).f i := by
      rcases hiS with h | h
      · exact writeBytes_f_lt h
      · exact writeBytes_f_ge (by omega)
    rw [h1, writeBytes_f_lt (by omega), appendBytes_f_lt (by omega)]
  have hde2S : Ev.hdrWrite S ∉ de2 := by
    intro hmem
    have := (hf2 S hmem).1
    omega
  have hde2E : Ev.hdrWrite E ∉ de2 := by
    intro hmem
    have := (hf2 E hmem).2
    rw [← hE0] at this
    omega
  have hgd0open : openB.getD 0 0 = startFolder := by rw [hopenB]; rfl
  have hgd0close : closeB.getD 0 0 = endFolder := by rw [hcloseB]; rfl
  refine ⟨?_, ?_,
    [Ev.hdrWrite S, Ev.hdrWrite S] ++
      (de2 ++ [Ev.hdrWrite E, Ev.hdrWrite E, Ev.hdrWrite S]),
    dh2 ++ [(S, openB), (E, closeB)],
    db2 ++ [⟨S, E, unc, d⟩], ?_, ?_, ?_, ?_, ?_, ?_, ?_⟩
  · dsimp only
    omega
  · intro i hi
    dsimp only
    rw [hA3pres i (by omega) (Or.inl (by omega)), p2 i (by omega)]
    exact h1pres i hi
  · dsimp only
    rw [he2, hst1]
    dsimp only
    simp [List.append_assoc]
  · dsimp only
    rw [hh2, hst1]
    dsimp only
    simp [List.append_assoc]
  · dsimp only
    rw [hb2, hst1]
    dsimp only
    simp [List.append_assoc]
  · intro off hoff
    dsimp only
    rcases List.mem_append.mp hoff with h | h
    · have : off = S := by simpa using h
      omega
    · rcases List.mem_append.mp h with h | h
      · have h1 := hf2 off h
        omega
      · have : off = E ∨ off = S := by simpa using h
        rcases this with h | h <;> omega
  · intro q hq
    dsimp only
    rcases List.mem_append.mp hq with h | h
    · obtain ⟨q1, q2, q3, q4, q5⟩ := hH2 q h
      refine ⟨by omega, by omega, ?_, q4, ?_⟩
      · rw [← q3]
        refine readBytes_congr ?_
        intro i hi1 hi2
        exact hA3pres i (by omega) (Or.inr (by omega))
      · rw [countWrites_append, countWrites_append]
        rw [@countWrites_eq_zero [Ev.hdrWrite S, Ev.hdrWrite S] q.1
          (by intro hm; simp at hm; omega)]
        rw [@countWrites_eq_zero [Ev.hdrWrite E, Ev.hdrWrite E, Ev.hdrWrite S] q.1
          (by intro hm; simp at hm; omega)]
        rw [q5]
        simp
    · simp only [List.mem_cons, List.mem_singleton] at h
      rcases h with h | h | h
      · subst h
        refine ⟨by omega, by omega, ?_, by rw [hopenB]; exact crcOK_setCRC env _, ?_⟩
        · rw [hA3, show (112 : Nat) = openB.length from hoplen.symm]
          exact readBytes_writeBytes_self _ _ _
        · rw [if_pos (by rw [hgd0open])]
          rw [countWrites_append, countWrites_append]
          rw [countWrites_cons_self, countWrites_cons_self, countWrites_nil]
          rw [countWrites_eq_zero hde2S]
          rw [countWrites_cons_ne (by omega), countWrites_cons_ne (by omega),
            countWrites_cons_self, countWrites_nil]
      · subst h
        refine ⟨by omega, by omega, ?_, by rw [hcloseB]; exact crcOK_setCRC env _, ?_⟩
        · rw [hA3, readBytes_writeBytes_right (by rw [hoplen]; omega),
            show (112 : Nat) = closeB.length from hcllen.symm]
          exact readBytes_writeBytes_self _ _ _
        · rw [if_neg (by rw [hgd0close]; decide)]
          rw [countWrites_append, countWrites_append]
          rw [countWrites_cons_ne (by omega), countWrites_cons_ne (by omega),
            countWrites_nil]
          rw [countWrites_eq_zero hde2E]
          rw [countWrites_cons_self, countWrites_cons_self,
            countWrites_cons_ne (by omega), countWrites_nil]
      · exact absurd h (by simp)
  · intro off hoff hnot
    rcases List.mem_append.mp hoff with h | h
    · exfalso
      apply hnot
      have : off = S := by simpa using h
      simp [this]
    · rcases List.mem_append.mp h with h | h
      · have hb1 := hf2 off h
        have hnot2 : off ∉ dh2.map Prod.fst := by
          intro hm
          exact hnot (by simp [hm])
        rw [countWrites_append, countWrites_append]
        rw [@countWrites_eq_zero [Ev.hdrWrite S, Ev.hdrWrite S] off
          (by intro hm; simp at hm; omega)]
        rw [@countWrites_eq_zero [Ev.hdrWrite E, Ev.hdrWrite E, Ev.hdrWrite S] off
          (by intro hm; simp at hm; omega)]
        rw [hO2 off h hnot2]
      · exfalso
        apply hnot
        have : off = E ∨ off = S := by simpa using h
        rcases this with h | h <;> simp [h]
  · intro b hbm
    dsimp only
    rcases List.mem_append.mp hbm with h | h
    · obtain ⟨q1, q2, q3, q4, q5⟩ := hB2 b h
      exact ⟨by omega, q2, by omega,
        List.mem_append.mpr (Or.inl q4), List.mem_append.mpr (Or.inl q5)⟩
    · have : b = ⟨S, E, unc, d⟩ := by simpa using h
      subst this
      refine ⟨by dsimp only; omega, by dsimp only; omega, by dsimp only; omega, ?_, ?_⟩
      · refine List.mem_append.mpr (Or.inr ?_)
        simp [bracketRecBytes, hopenB]
      · refine List.mem_append.mpr (Or.inr ?_)
        simp [bracketRecBytes, hcloseB]


/-! ## The invariant across the whole run -/

theorem putGood (env : Env) : ∀ k : Nat,
    (∀ (st : EncSt) (it : FSItem), StepGood env st (putItemF env k st it).1) ∧
    (∀ (st : EncSt) (l : List FSItem), StepGood env st (putListF env k st l).1) := by
  intro k
  induction k with
  | zero =>
    exact ⟨fun st it => stepGood_refl env st, fun st l => stepGood_refl env st⟩
  | succ k ih =>
    constructor
    · intro st it
      cases it with
      | file f => exact putFileM_good env st f
      | dir d cs => exact dirStepGood env st d cs k (fun st0 => ih.2 st0 cs)
    · intro st l
      cases l with
      | nil => exact stepGood_refl env st
      | cons it rest =>
        rw [putListF]
        split
        · exact ih.2 st rest
        · dsimp only
          exact stepGood_trans (ih.1 st it) (ih.2 _ rest)

theorem runArgs_good (env : Env) (st : EncSt) :
    ∀ l : List FSItem, StepGood env st (runArgs env st l).1 := by
  intro l
  induction l generalizing st with
  | nil => exact stepGood_refl env st
  | cons it rest ih =>
    rw [runArgs]
    dsimp only
    exact stepGood_trans ((putGood env (fuelItem it)).1 st it) (ih _)

@[simp] theorem sitHdrBytes_length (items total : Nat) :
    (sitHdrBytes items total).length = 22 := by
  simp [sitHdrBytes]

/-- The invariant carried to the finished archive: every finalized header
is readable back at its offset, carries a valid checksum, and was written
twice (three times for a folder-open record); a written offset that was
never finalized saw exactly one write; every bracket's records are among
the finalized headers. -/

theorem runSit_sound (env : Env) (args : List FSItem) :
    (∀ p ∈ (runSit env args).st.headers,
      22 ≤ p.1 ∧ p.1 + 112 ≤ (runSit env args).st.arch.len ∧
      readBytes (runSit env args).st.arch p.1 112 = p.2 ∧ crcOK env p.2 ∧
      countWrites (runSit env args).st.events p.1 =
        (if p.2.getD 0 0 = startFolder then 3 else 2)) ∧
    (∀ off, Ev.hdrWrite off ∈ (runSit env args).st.events →
      off ∉ (runSit env args).st.headers.map Prod.fst →
      countWrites (runSit env args).st.events off = 1) ∧
    (∀ b ∈ (runSit env args).st.brackets,
      22 ≤ b.sPos ∧ b.sPos + 112 ≤ b.ePos ∧
      b.ePos + 112 ≤ (runSit env args).st.arch.len ∧
      (b.sPos, bracketRecBytes env b startFolder) ∈ (runSit env args).st.headers ∧
      (b.ePos, bracketRecBytes env b endFolder) ∈ (runSit env args).st.headers) := by
  set st0 : EncSt := ⟨appendBytes arch0 (List.replicate 22 0), [], [], []⟩ with hst0
  have hst0len : st0.arch.len = 22 := by simp [hst0, arch0]
  have hg := runArgs_good env st0 args
  set r1 := (runArgs env st0 args).1 with hr1
  obtain ⟨l1, p1, de, dh, db, he, hh, hb, hf, hH, hO, hB⟩ := hg
  have hde : r1.events = de := by simpa using he
  have hdh : r1.headers = dh := by simpa using hh
  have hdb : r1.brackets = db := by simpa using hb
  set sh := sitHdrBytes (runArgs env st0 args).2.2.1 ((runArgs env st0 args).2.1 + 22)
    with hsh
  have hR : (runSit env args).st = { r1 with arch := writeBytes r1.arch 0 sh } := by
    rw [runSit]
  have hshlen : sh.length = 22 := by rw [hsh]; simp
  have hRlen : (runSit env args).st.arch.len = r1.arch.len := by
    rw [hR]
    exact writeBytes_len_of_le (by rw [hshlen]; omega)
  have hRpres : ∀ i, 22 ≤ i → (runSit env args).st.arch.f i = r1.arch.f i := by
    intro i hi
    rw [hR]
    exact writeBytes_f_ge (by rw [hshlen]; omega)
  have hRev : (runSit env args).st.events = r1.events := by rw [hR]
  have hRhd : (runSit env args).st.headers = r1.headers := by rw [hR]
  have hRbr : (runSit env args).st.brackets = r1.brackets := by rw [hR]
  refine ⟨?_, ?_, ?_⟩
  · intro p hp
    rw [hRhd, hdh] at hp
    obtain ⟨q1, q2, q3, q4, q5⟩ := hH p hp
    rw [hst0len] at q1
    refine ⟨q1, by rw [hRlen]; omega, ?_, q4, ?_⟩
    · rw [← q3]
      refine readBytes_congr ?_
      intro i hi1 _
      exact hRpres i (by omega)
    · rw [hRev, hde]
      exact q5
  · intro off hoff hnot
    rw [hRev, hde] at hoff ⊢
    rw [hRhd, hdh] at hnot
    exact hO off hoff hnot
  · intro b hbm
    rw [hRbr, hdb] at hbm
    obtain ⟨q1, q2, q3, q4, q5⟩ := hB b hbm
    rw [hst0len] at q1
    refine ⟨q1, q2, by rw [hRlen]; omega, ?_, ?_⟩ <;>
      rw [hRhd, hdh]
    · exact q4
    · exact q5



/-! ## Field values of finalized records -/

theorem setCRC_cDLen (env : Env) (h : FH) : (setCRC env h).cDLen = h.cDLen := rfl

theorem setCRC_dLen (env : Env) (h : FH) : (setCRC env h).dLen = h.dLen := rfl

theorem folderFH_cDLen (env : Env) (d : DirInfo) (unc span m : Nat) :
    (folderFH env d unc span m).cDLen = cp4 span := rfl

theorem folderFH_dLen (env : Env) (d : DirInfo) (unc span m : Nat) :
    (folderFH env d unc span m).dLen = cp4 unc := rfl

theorem bracketRec_cDLen (env : Env) (b : Bracket) (m : Nat) :
    hdrCDLen (bracketRecBytes env b m) = cp4 (b.ePos - b.sPos) := by
  rw [bracketRecBytes, hdrCDLen_fhBytes, setCRC_cDLen, folderFH_cDLen]
  exact field_of_length (by simp)

theorem bracketRec_dLen (env : Env) (b : Bracket) (m : Nat) :
    hdrDLen (bracketRecBytes env b m) = cp4 b.unc := by
  rw [bracketRecBytes, hdrDLen_fhBytes, setCRC_dLen, folderFH_dLen]
  exact field_of_length (by simp)

theorem bracketRec_name (env : Env) (b : Bracket) (m : Nat) :
    hdrName (bracketRecBytes env b m) = field 64 (pstr (convertName b.d.name 63)) := by
  rw [bracketRecBytes, hdrName_fhBytes]
  rfl

theorem bracketRec_cDate (env : Env) (b : Bracket) (m : Nat) :
    hdrCDate (bracketRecBytes env b m) = cp4 (b.d.ctime + env.tdiff) := by
  rw [bracketRecBytes, hdrCDate_fhBytes]
  rfl

theorem bracketRec_mDate (env : Env) (b : Bracket) (m : Nat) :
    hdrMDate (bracketRecBytes env b m) = cp4 (b.d.mtime + env.tdiff) := by
  rw [bracketRecBytes, hdrMDate_fhBytes]
  rfl

theorem bracketRec_getD0 (env : Env) (b : Bracket) (m : Nat) :
    (bracketRecBytes env b m).getD 0 0 = m := rfl

theorem bracketRec_getD1 (env : Env) (b : Bracket) (m : Nat) :
    (bracketRecBytes env b m).getD 1 0 = m := rfl

theorem bracketRec_crc (env : Env) (b : Bracket) (m : Nat) :
    hdrCRCField (bracketRecBytes env b m) =
      cp2 (env.updcrc 0 ((bracketRecBytes env b m).take 110)) := by
  rw [bracketRecBytes]
  exact (crcOK_setCRC env _).2

/-- The serialized folder record: the method byte twice, then a tail that
does not depend on the method code. -/

theorem fhBytes_folderFH (env : Env) (d : DirInfo) (unc span m : Nat) :
    fhBytes (folderFH env d unc span m) = m :: m :: folderFHTail env d unc span := rfl

theorem folderFHTail_length (env : Env) (d : DirInfo) (unc span : Nat) :
    (folderFHTail env d unc span).length = 110 := by
  simp [folderFHTail]

/-- Away from the method bytes and the checksum field, the patched open
record and the close record coincide byte for byte. -/

theorem bracketRec_pointwise (env : Env) (b : Bracket) (i : Nat)
    (h2 : 2 ≤ i) (h109 : i ≤ 109) :
    (bracketRecBytes env b startFolder).getD i 0 =
      (bracketRecBytes env b endFolder).getD i 0 := by
  obtain ⟨j, rfl⟩ : ∃ j, i = j + 1 + 1 := ⟨i - 2, by omega⟩
  rw [bracketRecBytes, bracketRecBytes, fhBytes_setCRC_decomp, fhBytes_setCRC_decomp,
    fhBytes_folderFH, fhBytes_folderFH]
  have hlen : ∀ m : Nat,
      ((m :: m :: folderFHTail env b.d b.unc (b.ePos - b.sPos)).take 110).length = 110 := by
    intro m
    simp [folderFHTail_length]
  rw [List.getD_append _ _ _ _ (by rw [hlen]; omega),
    List.getD_append _ _ _ _ (by rw [hlen]; omega)]
  rw [List.take_succ_cons, List.take_succ_cons, List.take_succ_cons, List.take_succ_cons]
  rw [List.getD_cons_succ, List.getD_cons_succ, List.getD_cons_succ, List.getD_cons_succ]



/-! ## `put_file` storage facts -/

theorem setCRC_compDMethod (env : Env) (h : FH) :
    (setCRC env h).compDMethod = h.compDMethod := rfl

theorem setCRC_dataCRC (env : Env) (h : FH) :
    (setCRC env h).dataCRC = h.dataCRC := rfl

theorem setCRC_rLen (env : Env) (h : FH) : (setCRC env h).rLen = h.rLen := rfl

theorem setCRC_cRLen (env : Env) (h : FH) : (setCRC env h).cRLen = h.cRLen := rfl

theorem fileRecBytes_length (env : Env) (f : FileNode) :
    (fileRecBytes env f).length = 112 := by
  rw [fileRecBytes]
  exact fhBytes_length _

theorem fhBytes_getD1 (h : FH) : (fhBytes h).getD 1 0 = h.compDMethod := rfl

/-- The state `put_file` leaves behind when the file is not skipped:
the finalized record at the reserved offset, the resource-fork bytes right
after it, the data-fork bytes after those, and the write/consult trail. -/

theorem putFileM_fork (env : Env) (st : EncSt) (f : FileNode)
    (hc : (resolveRsrc env f).found = true ∨ 0 < f.data.length) :
    (putFileM env st f).1.headers = st.headers ++ [(st.arch.len, fileRecBytes env f)] ∧
    (putFileM env st f).1.events = st.events ++
      (Ev.hdrWrite st.arch.len :: ((resolveRsrc env f).consults ++ [Ev.hdrWrite st.arch.len])) ∧
    readBytes (putFileM env st f).1.arch st.arch.len 112 = fileRecBytes env f ∧
    readBytes (putFileM env st f).1.arch (st.arch.len + 112)
      (resolveRsrc env f).written.length = (resolveRsrc env f).written ∧
    readBytes (putFileM env st f).1.arch
      (st.arch.len + 112 + (resolveRsrc env f).written.length)
      (if 0 < f.data.length then (doforkBytes env f.data env.unixf).1 else []).length =
      (if 0 < f.data.length then (doforkBytes env f.data env.unixf).1 else []) := by
  simp only [putFileM]
  rw [if_pos hc]
  set p := st.arch.len with hp
  set w := (resolveRsrc env f).written with hw
  set dw := (if 0 < f.data.length then (doforkBytes env f.data env.unixf).1 else []) with hdw
  set a1 := appendBytes st.arch (List.replicate 112 0) with ha1
  set a2 := appendBytes a1 w with ha2
  set a3 := appendBytes a2 dw with ha3
  have hl1 : a1.len = p + 112 := by simp [ha1]
  have hl2 : a2.len = p + 112 + w.length := by simp [ha2, hl1]
  have hl3 : a3.len = p + 112 + w.length + dw.length := by simp [ha3, hl2]
  have hhb : (fileRecBytes env f).length = 112 := fileRecBytes_length env f
  refine ⟨rfl, rfl, ?_, ?_, ?_⟩
  · dsimp only
    rw [show (112 : Nat) = (fileRecBytes env f).length from hhb.symm]
    exact readBytes_writeBytes_self _ _ _
  · dsimp only
    rw [readBytes_writeBytes_right (by rw [hhb])]
    rw [ha3, appendBytes, readBytes_writeBytes_left (by rw [hl2])]
    rw [ha2, show p + 112 = a1.len from hl1.symm]
    exact readBytes_appendBytes_self _ _
  · dsimp only
    rw [readBytes_writeBytes_right (by rw [hhb]; omega)]
    rw [ha3, show p + 112 + w.length = a2.len from hl2.symm]
    exact readBytes_appendBytes_self _ _

theorem fileRec_getD1 (env : Env) (f : FileNode) :
    (fileRecBytes env f).getD 1 0 =
      (if 0 < f.data.length then
        (if (env.comp (convertLF env.unixf f.data)).length = f.data.length then 0 else 2)
       else 0) := by
  rw [fileRecBytes]
  rw [fhBytes_getD1, setCRC_compDMethod]
  by_cases hd : 0 < f.data.length <;> simp [buildFileFH, doforkBytes, hd]

theorem fileRec_getD0_found (env : Env) (f : FileNode)
    (hf : (resolveRsrc env f).found = true) :
    (fileRecBytes env f).getD 0 0 =
      (if (resolveRsrc env f).written.length = (resolveRsrc env f).rlen then 0 else 2) := by
  rw [fileRecBytes]
  rw [fhBytes_getD0, setCRC_compRMethod]
  simp [buildFileFH, hf]

/-- Strategy 1 short-circuits the resolver when it reports a nonzero
length. -/

theorem resolveRsrc_strategy1 (env : Env) (f : FileNode)
    (h1 : 0 < getADRsrcSize f) :
    resolveRsrc env f = ⟨getADRsrcSize f, adRsrcBytes f,
      env.updcrc 0 (adRsrcBytes f), [Ev.consult 1], true⟩ := by
  rw [resolveRsrc]
  dsimp only
  rw [if_pos h1]

/-- With no sidecar of any kind, the resolver reports no secondary fork
after consulting all three strategies. -/

theorem resolveRsrc_none (env : Env) (f : FileNode)
    (h1 : f.dotUnderscore = none) (h2 : f.rsrcFile = none) (h3 : f.namedFork = none) :
    resolveRsrc env f =
      ⟨0, [], 0, [Ev.consult 1, Ev.consult 2, Ev.consult 3], false⟩ := by
  have had : getADRsrcSize f = 0 := by
    rw [getADRsrcSize, openAppleDouble, h1, h2]
  rw [resolveRsrc]
  dsimp only
  rw [if_neg (by rw [had]; omega), h2]
  rw [resolveRsrc3, h3]

theorem fileRec_rLen (env : Env) (f : FileNode)
    (hf : (resolveRsrc env f).found = true) :
    hdrRLen (fileRecBytes env f) = cp4 (resolveRsrc env f).rlen := by
  rw [fileRecBytes]
  rw [hdrRLen_fhBytes, setCRC_rLen]
  simp [buildFileFH, hf]
  exact field_of_length (by simp)

theorem fileRec_cRLen (env : Env) (f : FileNode)
    (hf : (resolveRsrc env f).found = true) :
    hdrCRLen (fileRecBytes env f) = cp4 (resolveRsrc env f).written.length := by
  rw [fileRecBytes]
  rw [hdrCRLen_fhBytes, setCRC_cRLen]
  simp [buildFileFH, hf]
  exact field_of_length (by simp)

theorem fileRec_dataCRC (env : Env) (f : FileNode) (hd : 0 < f.data.length) :
    hdrDataCRC (fileRecBytes env f) =
      cp2 (env.updcrc 0 (convertLF env.unixf f.data)) := by
  rw [fileRecBytes]
  rw [hdrDataCRC_fhBytes, setCRC_dataCRC]
  simp [buildFileFH, doforkBytes, hd]
  exact field_of_length (by simp)



/-! ## Item counting (`main`'s `items` accumulator) -/

/-- The resolver reports a fork exactly when one of the three sources has a
nonzero-length stream. -/

theorem resolveRsrc_found_eq (env : Env) (f : FileNode) :
    (resolveRsrc env f).found = fileHasFork f := by
  have h3 : (resolveRsrc3 env f).found =
      (match f.namedFork with | some c => decide (0 < c.length) | none => false) := by
    rw [resolveRsrc3]
    rcases f.namedFork with _ | c
    · rfl
    · dsimp only
      split
      · next h => simp [h]
      · next h => simp [h]
  rw [resolveRsrc, fileHasFork]
  dsimp only
  split
  · next h1 => simp [h1]
  · next h1 =>
    have h1f : decide (0 < getADRsrcSize f) = false := by simp; omega
    rcases hrf : f.rsrcFile with _ | c
    · rw [h3, h1f]
      simp
    · dsimp only
      split
      · next h => simp [h1f, h]
      · next h =>
        rw [h3, h1f]
        simp [h]

theorem putItemF_ret_contributes (env : Env) (st : EncSt) (it : FSItem) :
    ((putItemF env (fuelItem it) st it).2.1 ≠ 0) ↔ contributes it = true := by
  cases it with
  | file f =>
    rw [show fuelItem (FSItem.file f) = 0 + 1 from rfl]
    rw [show putItemF env (0 + 1) st (FSItem.file f) = putFileM env st f from rfl]
    simp only [putFileM]
    split
    · next hc =>
      dsimp only
      constructor
      · intro _
        rw [contributes]
        rcases hc with h | h
        · have hff : fileHasFork f = true := by
            rw [← resolveRsrc_found_eq env f]
            exact h
          simp [hff]
        · simp [h]
      · intro _
        omega
    · next hc =>
      dsimp only
      constructor
      · intro h
        exact absurd rfl h
      · intro h
        exfalso
        apply hc
        rw [contributes] at h
        simp only [Bool.or_eq_true, decide_eq_true_eq] at h
        rcases h with h | h
        · left
          rw [resolveRsrc_found_eq]
          exact h
        · right
          exact h
  | dir d cs =>
    rw [show fuelItem (FSItem.dir d cs) = fuelList cs + 1 from rfl]
    simp only [putItemF]
    rw [putFolderEntryM_open]
    dsimp only
    rw [putFolderEntryM_close]
    dsimp only
    simp [contributes]

theorem runArgs_items_count (env : Env) :
    ∀ (l : List FSItem) (st : EncSt),
      (runArgs env st l).2.2.1 = l.countP contributes ∧
      (runArgs env st l).2.2.2.2.length = l.length := by
  intro l
  induction l with
  | nil => intro st; simp [runArgs]
  | cons it rest ih =>
    intro st
    rw [runArgs]
    dsimp only
    rw [List.countP_cons]
    constructor
    · have h := putItemF_ret_contributes env st it
      have hr := (ih ((putItemF env (fuelItem it) st it).1)).1
      by_cases hc : (putItemF env (fuelItem it) st it).2.1 ≠ 0
      · rw [if_pos hc, hr, h.mp hc]
        simp
        omega
      · rw [if_neg hc, hr]
        have : contributes it = false := by
          rcases Bool.eq_false_or_eq_true (contributes it) with hh | hh
          · exact absurd (h.mpr hh) hc
          · exact hh
        simp [this]
    · simp [(ih ((putItemF env (fuelItem it) st it).1)).2]



/-! ## Concrete run instances used by witnesses and counterexamples -/

theorem runSit_numFiles_slice (env : Env) (args : List FSItem) :
    readBytes (runSit env args).st.arch 4 2 = cp2 ((runSit env args).items) := by
  have hr : ∀ (a : Arch) (c t : Nat),
      readBytes (writeBytes a 0 (sitHdrBytes c t)) 4 2 = cp2 c := by
    intro a c t
    have e : readBytes (writeBytes a 0 (sitHdrBytes c t)) 4 2 =
        [(writeBytes a 0 (sitHdrBytes c t)).f 4, (writeBytes a 0 (sitHdrBytes c t)).f 5] := rfl
    rw [e, writeBytes_f_in (by omega) (by rw [sitHdrBytes_length]; omega),
      writeBytes_f_in (by omega) (by rw [sitHdrBytes_length]; omega)]
    rfl
  rw [runSit]
  exact hr _ _ _

/-! ## The claims -/

/-- C1 (corrected).  For every folder bracket of a run: the close record's
cDLen field and the patched open record's cDLen field hold the byte span
from the start of the open record to the start of the close record, and the
dLen fields of both records hold the folder's accumulated uncompressed
total — which, contrary to the claim as stated, need not equal that span. -/

theorem folder_bracket_length_fields (env : Env) (args : List FSItem) (b : Bracket)
    (hb : b ∈ (runSit env args).st.brackets) :
    readBytes (runSit env args).st.arch b.sPos 112 = bracketRecBytes env b startFolder ∧
    readBytes (runSit env args).st.arch b.ePos 112 = bracketRecBytes env b endFolder ∧
    hdrCDLen (bracketRecBytes env b endFolder) = cp4 (b.ePos - b.sPos) ∧
    hdrCDLen (bracketRecBytes env b startFolder) = cp4 (b.ePos - b.sPos) ∧
    hdrDLen (bracketRecBytes env b endFolder) = cp4 b.unc ∧
    hdrDLen (bracketRecBytes env b startFolder) = cp4 b.unc := by
  obtain ⟨q1, q2, q3, q4, q5⟩ := (runSit_sound env args).2.2 b hb
  have e1 := ((runSit_sound env args).1 _ q4).2.2.1
  have e2 := ((runSit_sound env args).1 _ q5).2.2.1
  exact ⟨e1, e2, bracketRec_cDLen env b endFolder, bracketRec_cDLen env b startFolder,
    bracketRec_dLen env b endFolder, bracketRec_dLen env b startFolder⟩

set_option maxRecDepth 1000000 in

theorem folder_bracket_length_fields_witness :
    readBytes (runSit env0 [cexDir]).st.arch 22 112 =
      bracketRecBytes env0 ⟨22, 246, 112, dirD⟩ startFolder ∧
    readBytes (runSit env0 [cexDir]).st.arch 246 112 =
      bracketRecBytes env0 ⟨22, 246, 112, dirD⟩ endFolder ∧
    hdrCDLen (bracketRecBytes env0 ⟨22, 246, 112, dirD⟩ endFolder) = cp4 224 ∧
    hdrCDLen (bracketRecBytes env0 ⟨22, 246, 112, dirD⟩ startFolder) = cp4 224 ∧
    hdrDLen (bracketRecBytes env0 ⟨22, 246, 112, dirD⟩ endFolder) = cp4 112 ∧
    hdrDLen (bracketRecBytes env0 ⟨22, 246, 112, dirD⟩ startFolder) = cp4 112 :=
  folder_bracket_length_fields env0 [cexDir] ⟨22, 246, 112, dirD⟩ (by decide)

set_option maxRecDepth 1000000 in
/-- C1 counterexample.  A directory whose one file is skipped for having
no content: the stored folder-close record's dLen (112) differs from its
cDLen (224, the open-to-close byte span), refuting
close.dLen == close.cDLen == span as stated. -/

theorem folder_close_dlen_ne_span :
    (⟨22, 246, 112, dirD⟩ : Bracket) ∈ (runSit env0 [cexDir]).st.brackets ∧
    hdrDLen (readBytes (runSit env0 [cexDir]).st.arch 246 112) = cp4 112 ∧
    hdrCDLen (readBytes (runSit env0 [cexDir]).st.arch 246 112) = cp4 224 ∧
    246 - 22 = 224 ∧
    hdrDLen (readBytes (runSit env0 [cexDir]).st.arch 246 112) ≠
      hdrCDLen (readBytes (runSit env0 [cexDir]).st.arch 246 112) := by
  decide

/-- C2 (confirmed).  Every finalized entry header of a finished run reads
back from the archive exactly, and its trailing 2-byte checksum field is
the CRC of the first 110 stored bytes of that record, from CRC state 0. -/

theorem entry_header_crc_valid (env : Env) (args : List FSItem)
    (p : Nat × List Nat) (hp : p ∈ (runSit env args).st.headers) :
    readBytes (runSit env args).st.arch p.1 112 = p.2 ∧
    hdrCRCField p.2 = cp2 (env.updcrc 0 (p.2.take 110)) := by
  obtain ⟨h1, h2, h3, h4, h5⟩ := (runSit_sound env args).1 p hp
  exact ⟨h3, h4.2⟩

set_option maxRecDepth 1000000 in

theorem entry_header_crc_valid_witness :
    readBytes (runSit env0 [FSItem.file fData]).st.arch 22 112 = fileRecBytes env0 fData ∧
    hdrCRCField (fileRecBytes env0 fData) =
      cp2 (env0.updcrc 0 ((fileRecBytes env0 fData).take 110)) :=
  entry_header_crc_valid env0 [FSItem.file fData] (22, fileRecBytes env0 fData) (by decide)

/-- C3 (corrected).  The per-stream compression method byte is 0 exactly
when the transferred stream length equals the fork length, and the nonzero
code 2 otherwise — including when the compressor output is larger than the
input, contrary to the claim as stated. -/

theorem compression_method_selection (env : Env) (st : EncSt) (f : FileNode)
    (hc : (resolveRsrc env f).found = true ∨ 0 < f.data.length) :
    readBytes (putFileM env st f).1.arch st.arch.len 112 = fileRecBytes env f ∧
    (0 < f.data.length →
      (fileRecBytes env f).getD 1 0 =
        (if (env.comp (convertLF env.unixf f.data)).length = f.data.length then 0 else 2)) ∧
    ((resolveRsrc env f).found = true →
      (fileRecBytes env f).getD 0 0 =
        (if (resolveRsrc env f).written.length = (resolveRsrc env f).rlen then 0 else 2)) := by
  refine ⟨(putFileM_fork env st f hc).2.2.1, ?_, ?_⟩
  · intro hd
    rw [fileRec_getD1, if_pos hd]
  · intro hf
    exact fileRec_getD0_found env f hf

set_option maxRecDepth 1000000 in

theorem compression_method_selection_witness :
    readBytes (putFileM env0 st0Demo fData).1.arch 22 112 = fileRecBytes env0 fData ∧
    (0 < fData.data.length →
      (fileRecBytes env0 fData).getD 1 0 =
        (if (env0.comp (convertLF env0.unixf fData.data)).length = fData.data.length
         then 0 else 2)) ∧
    ((resolveRsrc env0 fData).found = true →
      (fileRecBytes env0 fData).getD 0 0 =
        (if (resolveRsrc env0 fData).written.length = (resolveRsrc env0 fData).rlen
         then 0 else 2)) :=
  compression_method_selection env0 st0Demo fData (by decide)

set_option maxRecDepth 1000000 in
/-- C3 counterexample.  With a codec that grows a 1-byte stream to 2
bytes, the stored entry records dLen 1 and cDLen 2 — the compressed stream
is not strictly smaller — yet the data method byte is 2, not the 0 the
claim requires. -/

theorem compression_method_growth_cex :
    hdrDLen (readBytes (runSit envG [FSItem.file fOne]).st.arch 22 112) = cp4 1 ∧
    hdrCDLen (readBytes (runSit envG [FSItem.file fOne]).st.arch 22 112) = cp4 2 ∧
    (readBytes (runSit envG [FSItem.file fOne]).st.arch 22 112).getD 1 0 = 2 ∧
    ¬(2 : Nat) < 1 ∧ (2 : Nat) ≠ 0 := by
  decide

/-- C4 (corrected).  A finalized file-entry or folder-close header offset
is written exactly twice, but a folder-open header offset is written three
times (placeholder, provisional record, patch at close), and a skipped
file's placeholder offset only once — contrary to the claim's "exactly
twice" for every record. -/

theorem header_write_counts (env : Env) (args : List FSItem) :
    (∀ p ∈ (runSit env args).st.headers,
      countWrites (runSit env args).st.events p.1 =
        (if p.2.getD 0 0 = startFolder then 3 else 2)) ∧
    (∀ off, Ev.hdrWrite off ∈ (runSit env args).st.events →
      off ∉ (runSit env args).st.headers.map Prod.fst →
      countWrites (runSit env args).st.events off = 1) :=
  ⟨fun p hp => ((runSit_sound env args).1 p hp).2.2.2.2, (runSit_sound env args).2.1⟩

set_option maxRecDepth 1000000 in

theorem header_write_counts_witness :
    countWrites (runSit env0 [cexDir]).st.events 22 =
      (if (bracketRecBytes env0 ⟨22, 246, 112, dirD⟩ startFolder).getD 0 0 = startFolder
       then 3 else 2) :=
  (header_write_counts env0 [cexDir]).1
    (22, bracketRecBytes env0 ⟨22, 246, 112, dirD⟩ startFolder) (by decide)

set_option maxRecDepth 1000000 in
/-- C4 counterexample.  In a run archiving one directory with one skipped
file, the folder-open header offset 22 is written three times and the
skipped placeholder offset 134 once, refuting "every entry header record is
written to its file offset exactly twice". -/

theorem header_write_thrice_cex :
    (22, bracketRecBytes env0 ⟨22, 246, 112, dirD⟩ startFolder) ∈
      (runSit env0 [cexDir]).st.headers ∧
    countWrites (runSit env0 [cexDir]).st.events 22 = 3 ∧
    Ev.hdrWrite 134 ∈ (runSit env0 [cexDir]).st.events ∧
    countWrites (runSit env0 [cexDir]).st.events 134 = 1 ∧
    ¬(∀ p ∈ (runSit env0 [cexDir]).st.headers,
        countWrites (runSit env0 [cexDir]).st.events p.1 = 2) := by
  decide

/-- C5 (confirmed).  When strategy 1 (the AppleDouble sidecar) reports a
nonzero resource-fork length, strategies 2 and 3 are never consulted, and
the entry's rLen, cRLen and stored resource bytes all come from strategy 1
alone. -/

theorem strategy_one_short_circuit (env : Env) (st : EncSt) (f : FileNode)
    (h1 : 0 < getADRsrcSize f) :
    resolveRsrc env f = ⟨getADRsrcSize f, adRsrcBytes f,
      env.updcrc 0 (adRsrcBytes f), [Ev.consult 1], true⟩ ∧
    (putFileM env st f).1.events = st.events ++
      [Ev.hdrWrite st.arch.len, Ev.consult 1, Ev.hdrWrite st.arch.len] ∧
    Ev.consult 2 ∉ ([Ev.hdrWrite st.arch.len, Ev.consult 1, Ev.hdrWrite st.arch.len] : List Ev) ∧
    Ev.consult 3 ∉ ([Ev.hdrWrite st.arch.len, Ev.consult 1, Ev.hdrWrite st.arch.len] : List Ev) ∧
    hdrRLen (fileRecBytes env f) = cp4 (getADRsrcSize f) ∧
    hdrCRLen (fileRecBytes env f) = cp4 (adRsrcBytes f).length ∧
    readBytes (putFileM env st f).1.arch (st.arch.len + 112) (adRsrcBytes f).length =
      adRsrcBytes f := by
  have hres := resolveRsrc_strategy1 env f h1
  have hfound : (resolveRsrc env f).found = true := by rw [hres]
  have hk := putFileM_fork env st f (Or.inl hfound)
  refine ⟨hres, ?_, by simp, by simp, ?_, ?_, ?_⟩
  · rw [hk.2.1, hres]
    rfl
  · rw [fileRec_rLen env f hfound, hres]
  · rw [fileRec_cRLen env f hfound, hres]
  · have := hk.2.2.2.1
    rw [hres] at this
    exact this

set_option maxRecDepth 1000000 in

theorem strategy_one_short_circuit_witness :
    resolveRsrc env0 fAD = ⟨getADRsrcSize fAD, adRsrcBytes fAD,
      env0.updcrc 0 (adRsrcBytes fAD), [Ev.consult 1], true⟩ ∧
    (putFileM env0 st0Demo fAD).1.events = st0Demo.events ++
      [Ev.hdrWrite 22, Ev.consult 1, Ev.hdrWrite 22] ∧
    Ev.consult 2 ∉ ([Ev.hdrWrite 22, Ev.consult 1, Ev.hdrWrite 22] : List Ev) ∧
    Ev.consult 3 ∉ ([Ev.hdrWrite 22, Ev.consult 1, Ev.hdrWrite 22] : List Ev) ∧
    hdrRLen (fileRecBytes env0 fAD) = cp4 (getADRsrcSize fAD) ∧
    hdrCRLen (fileRecBytes env0 fAD) = cp4 (adRsrcBytes fAD).length ∧
    readBytes (putFileM env0 st0Demo fAD).1.arch (22 + 112) (adRsrcBytes fAD).length =
      adRsrcBytes fAD :=
  strategy_one_short_circuit env0 st0Demo fAD (by decide)

/-- C6 (confirmed).  The archive header's numFiles field encodes the
number of top-level arguments that contributed bytes (every directory, and
every file with a secondary fork or non-empty primary stream); a skipped
item is excluded while every argument is still processed. -/

theorem num_files_counts_args (env : Env) (args : List FSItem) :
    (runSit env args).items = args.countP contributes ∧
    readBytes (runSit env args).st.arch 4 2 = cp2 ((runSit env args).items) ∧
    (runSit env args).ns.length = args.length := by
  refine ⟨?_, runSit_numFiles_slice env args, ?_⟩
  · rw [runSit]
    exact (runArgs_items_count env args _).1
  · rw [runSit]
    exact (runArgs_items_count env args _).2

/-- C7 (confirmed).  With line-ending conversion enabled, for every file
entry with a non-empty primary stream: the stored dataCRC field is the CRC
of the stream after every line-feed byte (0x0A) is replaced by a
carriage-return byte (0x0D) and before any compression, and the bytes
written to the archive for the primary stream are the codec applied to
exactly that converted stream; in particular the conversion maps "A\nB"
to "A\rB", so that scenario's stored checksum reflects the converted
bytes, not the original. -/

theorem line_conversion_checksum (env : Env) (st : EncSt) (f : FileNode)
    (hu : env.unixf = true) (hd : 0 < f.data.length) :
    hdrDataCRC (fileRecBytes env f) =
      cp2 (env.updcrc 0 (f.data.map (fun b => if b = 10 then 13 else b))) ∧
    readBytes (putFileM env st f).1.arch
      (st.arch.len + 112 + (resolveRsrc env f).written.length)
      (env.comp (f.data.map (fun b => if b = 10 then 13 else b))).length =
      env.comp (f.data.map (fun b => if b = 10 then 13 else b)) ∧
    convertLF true [65, 10, 66] = [65, 13, 66] := by
  have hcv : convertLF env.unixf f.data =
      f.data.map (fun b => if b = 10 then 13 else b) := by
    rw [hu, convertLF]
    simp
  refine ⟨?_, ?_, by decide⟩
  · rw [fileRec_dataCRC env f hd, hcv]
  · have hk := (putFileM_fork env st f (Or.inr hd)).2.2.2.2
    rw [if_pos hd] at hk
    have hdw : (doforkBytes env f.data env.unixf).1 =
        env.comp (f.data.map (fun b => if b = 10 then 13 else b)) := by
      rw [doforkBytes, hcv]
    rw [hdw] at hk
    exact hk

set_option maxRecDepth 1000000 in

theorem line_conversion_checksum_witness :
    hdrDataCRC (fileRecBytes envU fData) =
      cp2 (envU.updcrc 0 (fData.data.map (fun b => if b = 10 then 13 else b))) ∧
    readBytes (putFileM envU st0Demo fData).1.arch
      (22 + 112 + (resolveRsrc envU fData).written.length)
      (envU.comp (fData.data.map (fun b => if b = 10 then 13 else b))).length =
      envU.comp (fData.data.map (fun b => if b = 10 then 13 else b)) ∧
    convertLF true [65, 10, 66] = [65, 13, 66] :=
  line_conversion_checksum envU st0Demo fData (by decide) (by decide)

/-- C8 (corrected).  The transcoding loop replaces every path-separator
byte 0x3A it consumes with 0x2F and never emits 0x3A among the data bytes;
the claim fails only for the length-prefix byte of the produced Pascal
string, which equals the data count and can itself be 0x3A. -/

theorem transcoder_colon_replacement (bytes : List Nat) (maxLength : Nat) :
    (∀ b ∈ convertName bytes maxLength, b ≠ 58) ∧
    (∀ (F r : Nat) (rest : List Nat),
      convGo (F + 1) (58 :: rest) (r + 1) = 47 :: convGo F rest r) := by
  constructor
  · intro b hb
    exact convGo_ne_58 _ _ _ b hb
  · intro F r rest
    rw [convGo]
    rw [if_neg (by omega)]
    rfl

theorem transcoder_colon_replacement_witness :
    (∀ b ∈ convertName [97, 58, 98] 63, b ≠ 58) ∧
    convGo 3 (58 :: [97]) 3 = 47 :: convGo 2 [97] 2 :=
  ⟨(transcoder_colon_replacement [97, 58, 98] 63).1,
   (transcoder_colon_replacement [97, 58, 98] 63).2 2 2 [97]⟩

set_option maxRecDepth 1000000 in
/-- C8 counterexample.  A 58-character name transcodes to 58 data bytes,
so the produced length-prefixed string starts with the byte 58 = 0x3A —
an output byte of the Pascal string that is the colon byte, refuting "no
output byte of the produced length-prefixed string is ever the colon". -/

theorem transcoder_pstring_colon_cex :
    pstr (convertName (List.replicate 58 97) 63) = 58 :: List.replicate 58 97 ∧
    (0x3A : Nat) = 58 ∧
    (58 : Nat) ∈ pstr (convertName (List.replicate 58 97) 63) := by
  decide

/-- C9 (confirmed).  The sidecar parser returns the first matching
descriptor wherever it sits in the table of a well-formed container, and
returns none — without reading past the data it has — on a truncated
header, a wrong magic number, an absent identifier, or a declared count
that runs past the readable table. -/

theorem sidecar_parser_contract :
    (∀ (filler : List Nat) (es : List ADEntry) (extra : List Nat) (tid : Nat),
      filler.length = 20 → es.length < 65536 → (∀ e ∈ es, entryBounded e) →
      findEntry (mkADContent filler es extra) tid = es.find? (fun e => e.id == tid)) ∧
    (∀ (c : List Nat) (tid : Nat), c.length < 26 → findEntry c tid = none) ∧
    (∀ (c : List Nat) (tid : Nat), be32 (c.take 4) ≠ adMagic → findEntry c tid = none) ∧
    (∀ (filler : List Nat) (es : List ADEntry) (short : List Nat) (tid k : Nat),
      filler.length = 20 → es.length + k + 1 < 65536 → (∀ e ∈ es, entryBounded e) →
      (∀ e ∈ es, e.id ≠ tid) → short.length < 12 →
      findEntry (cp4 adMagic ++ filler ++ cp2 (es.length + k + 1) ++
        (es.map encEntry).flatten ++ short) tid = none) :=
  ⟨findEntry_mkAD, findEntry_short, findEntry_badMagic, findEntry_truncated⟩

theorem sidecar_parser_contract_witness :
    findEntry (mkADContent (List.replicate 20 0)
      [⟨finderInfoId, 60, 4⟩, ⟨resourceForkId, 70, 5⟩] []) resourceForkId =
      some ⟨resourceForkId, 70, 5⟩ ∧
    findEntry [1, 2, 3] resourceForkId = none :=
  ⟨(sidecar_parser_contract.1 (List.replicate 20 0)
      [⟨finderInfoId, 60, 4⟩, ⟨resourceForkId, 70, 5⟩] [] resourceForkId
      (by decide) (by decide) (by decide)).trans (by decide),
   sidecar_parser_contract.2.1 [1, 2, 3] resourceForkId (by decide)⟩

/-- C10 (confirmed).  After a bracket closes, the patched folder-open
record and the folder-close record stored in the archive agree on every
byte except the two method bytes (32 versus 33) and the 2-byte header
checksum, each of which is valid for its own record; in particular both
carry the same name, dates, dLen and cDLen. -/

theorem bracket_records_match (env : Env) (args : List FSItem) (b : Bracket)
    (hb : b ∈ (runSit env args).st.brackets) :
    readBytes (runSit env args).st.arch b.sPos 112 = bracketRecBytes env b startFolder ∧
    readBytes (runSit env args).st.arch b.ePos 112 = bracketRecBytes env b endFolder ∧
    (bracketRecBytes env b startFolder).getD 0 0 = startFolder ∧
    (bracketRecBytes env b startFolder).getD 1 0 = startFolder ∧
    (bracketRecBytes env b endFolder).getD 0 0 = endFolder ∧
    (bracketRecBytes env b endFolder).getD 1 0 = endFolder ∧
    (∀ i, 2 ≤ i → i ≤ 109 →
      (bracketRecBytes env b startFolder).getD i 0 =
        (bracketRecBytes env b endFolder).getD i 0) ∧
    hdrName (bracketRecBytes env b startFolder) = hdrName (bracketRecBytes env b endFolder) ∧
    hdrCDate (bracketRecBytes env b startFolder) = hdrCDate (bracketRecBytes env b endFolder) ∧
    hdrMDate (bracketRecBytes env b startFolder) = hdrMDate (bracketRecBytes env b endFolder) ∧
    hdrDLen (bracketRecBytes env b startFolder) = hdrDLen (bracketRecBytes env b endFolder) ∧
    hdrCDLen (bracketRecBytes env b startFolder) = hdrCDLen (bracketRecBytes env b endFolder) ∧
    hdrCRCField (bracketRecBytes env b startFolder) =
      cp2 (env.updcrc 0 ((bracketRecBytes env b startFolder).take 110)) ∧
    hdrCRCField (bracketRecBytes env b endFolder) =
      cp2 (env.updcrc 0 ((bracketRecBytes env b endFolder).take 110)) := by
  obtain ⟨q1, q2, q3, q4, q5⟩ := (runSit_sound env args).2.2 b hb
  refine ⟨((runSit_sound env args).1 _ q4).2.2.1, ((runSit_sound env args).1 _ q5).2.2.1,
    bracketRec_getD0 env b startFolder, bracketRec_getD1 env b startFolder,
    bracketRec_getD0 env b endFolder, bracketRec_getD1 env b endFolder,
    fun i h2 h9 => bracketRec_pointwise env b i h2 h9, ?_, ?_, ?_, ?_, ?_,
    bracketRec_crc env b startFolder, bracketRec_crc env b endFolder⟩
  · rw [bracketRec_name, bracketRec_name]
  · rw [bracketRec_cDate, bracketRec_cDate]
  · rw [bracketRec_mDate, bracketRec_mDate]
  · rw [bracketRec_dLen, bracketRec_dLen]
  · rw [bracketRec_cDLen, bracketRec_cDLen]

set_option maxRecDepth 1000000 in

theorem bracket_records_match_witness :
    readBytes (runSit env0 [cexDir]).st.arch 22 112 =
      bracketRecBytes env0 ⟨22, 246, 112, dirD⟩ startFolder ∧
    readBytes (runSit env0 [cexDir]).st.arch 246 112 =
      bracketRecBytes env0 ⟨22, 246, 112, dirD⟩ endFolder ∧
    (bracketRecBytes env0 ⟨22, 246, 112, dirD⟩ startFolder).getD 0 0 = startFolder ∧
    (bracketRecBytes env0 ⟨22, 246, 112, dirD⟩ startFolder).getD 1 0 = startFolder ∧
    (bracketRecBytes env0 ⟨22, 246, 112, dirD⟩ endFolder).getD 0 0 = endFolder ∧
    (bracketRecBytes env0 ⟨22, 246, 112, dirD⟩ endFolder).getD 1 0 = endFolder ∧
    (∀ i, 2 ≤ i → i ≤ 109 →
      (bracketRecBytes env0 ⟨22, 246, 112, dirD⟩ startFolder).getD i 0 =
        (bracketRecBytes env0 ⟨22, 246, 112, dirD⟩ endFolder).getD i 0) ∧
    hdrName (bracketRecBytes env0 ⟨22, 246, 112, dirD⟩ startFolder) =
      hdrName (bracketRecBytes env0 ⟨22, 246, 112, dirD⟩ endFolder) ∧
    hdrCDate (bracketRecBytes env0 ⟨22, 246, 112, dirD⟩ startFolder) =
      hdrCDate (bracketRecBytes env0 ⟨22, 246, 112, dirD⟩ endFolder) ∧
    hdrMDate (bracketRecBytes env0 ⟨22, 246, 112, dirD⟩ startFolder) =
      hdrMDate (bracketRecBytes env0 ⟨22, 246, 112, dirD⟩ endFolder) ∧
    hdrDLen (bracketRecBytes env0 ⟨22, 246, 112, dirD⟩ startFolder) =
      hdrDLen (bracketRecBytes env0 ⟨22, 246, 112, dirD⟩ endFolder) ∧
    hdrCDLen (bracketRecBytes env0 ⟨22, 246, 112, dirD⟩ startFolder) =
      hdrCDLen (bracketRecBytes env0 ⟨22, 246, 112, dirD⟩ endFolder) ∧
    hdrCRCField (bracketRecBytes env0 ⟨22, 246, 112, dirD⟩ startFolder) =
      cp2 (env0.updcrc 0 ((bracketRecBytes env0 ⟨22, 246, 112, dirD⟩ startFolder).take 110)) ∧
    hdrCRCField (bracketRecBytes env0 ⟨22, 246, 112, dirD⟩ endFolder) =
      cp2 (env0.updcrc 0 ((bracketRecBytes env0 ⟨22, 246, 112, dirD⟩ endFolder).take 110)) :=
  bracket_records_match env0 [cexDir] ⟨22, 246, 112, dirD⟩ (by decide)

end Sit
